import Mathlib

/-!
Shallow embedding of `xyz_to_periodic_table.py` (element counting and
periodic-table heatmap pipeline) together with proofs that settle the
frozen specification claims.

Conventions of the embedding:
* Python `dict`/`Counter` objects become association lists `List (String × Nat)`
  whose order models Python's insertion order.
* `pandas` dataframes become lists of rows; the two relevant columns are kept
  explicitly.  `NaN` cells are modelled by the `Cell.na` constructor.
* Python floats are idealised as exact rationals `ℚ` (for divisions) and
  reals `ℝ` (for `math.log10` and the sRGB power), following the formulas the
  code evaluates.
* Fallible code returns `Except Err α` where `Err` mirrors the distinct
  `ValueError` sites of the script, carrying the data that each message
  interpolates.
* String handling (`.strip()`, `.lower()`, `.startswith`, slicing) is modelled
  on the character-list level for the ASCII strings the program manipulates.
-/

namespace XyzPt

instance {ε α : Type} [DecidableEq ε] [DecidableEq α] : DecidableEq (Except ε α)
  | .ok a, .ok b =>
    if h : a = b then .isTrue (by rw [h])
    else .isFalse (fun hh => by cases hh; exact h rfl)
  | .ok _, .error _ => .isFalse (fun hh => by cases hh)
  | .error _, .ok _ => .isFalse (fun hh => by cases hh)
  | .error e, .error f =>
    if h : e = f then .isTrue (by rw [h])
    else .isFalse (fun hh => by cases hh; exact h rfl)

/-- The per-message payloads of every `ValueError`/`RuntimeError` site of the
script, in source order of `xyz_to_periodic_table.py`. -/
inductive Err where
  | emptySymbol
  | invalidElement (symbol : String)
  | invalidFrameOption
  | readIndexOutOfRange
  | missingStructureNames (preview : List Nat) (ellipsis : Bool)
  | noAtomsAfterExclusion (excludedSorted : List String)
  | noAtoms
  | csvReadFailed
  | csvNoRows
  | csvTooFewColumns
  | csvNoValidRows
  | csvNonNumericCount (raw : String)
  | csvNegativeCounts
  | csvNonIntegerCounts
  | csvNoCountsAfterExclusion (excludedSorted : List String)
  | csvNoCountsAfterFiltering
  | nonPositiveMaxCount
  | nonPositiveFraction
  | logFractionRequiresFraction
  | logFractionWithLogScale
  | colorMinNotLessThanMax
  | uniqueStructureWithCsv
  | frameWithCsv
  deriving DecidableEq, Repr

/-- `ase.data.chemical_symbols`: the dummy symbol `"X"` (atomic number 0)
followed by the 118 elements.  `ase.data.atomic_numbers` maps each symbol to
its index in this list. -/
def chemical_symbols : List String :=
  ["X", "H", "He", "Li", "Be", "B", "C", "N", "O", "F", "Ne",
   "Na", "Mg", "Al", "Si", "P", "S", "Cl", "Ar", "K", "Ca",
   "Sc", "Ti", "V", "Cr", "Mn", "Fe", "Co", "Ni", "Cu", "Zn",
   "Ga", "Ge", "As", "Se", "Br", "Kr", "Rb", "Sr", "Y", "Zr",
   "Nb", "Mo", "Tc", "Ru", "Rh", "Pd", "Ag", "Cd", "In", "Sn",
   "Sb", "Te", "I", "Xe", "Cs", "Ba", "La", "Ce", "Pr", "Nd",
   "Pm", "Sm", "Eu", "Gd", "Tb", "Dy", "Ho", "Er", "Tm", "Yb",
   "Lu", "Hf", "Ta", "W", "Re", "Os", "Ir", "Pt", "Au", "Hg",
   "Tl", "Pb", "Bi", "Po", "At", "Rn", "Fr", "Ra", "Ac", "Th",
   "Pa", "U", "Np", "Pu", "Am", "Cm", "Bk", "Cf", "Es", "Fm",
   "Md", "No", "Lr", "Rf", "Db", "Sg", "Bh", "Hs", "Mt", "Ds",
   "Rg", "Cn", "Nh", "Fl", "Mc", "Lv", "Ts", "Og"]

/-- The position of `s` in a list, the index form of a dict lookup. -/
def idxOf? (s : String) : List String → Option Nat
  | [] => none
  | t :: rest => if t = s then some 0 else (idxOf? s rest).map (· + 1)

/-- `ase.data.atomic_numbers.get(s)`: `some z` when `s` is a key of the
`atomic_numbers` dict, i.e. a member of `chemical_symbols`. -/
def atomic_number? (s : String) : Option Nat :=
  idxOf? s chemical_symbols

/-- `atomic_numbers.get(e, 999)`, the sort key used throughout the script. -/
def zd (s : String) : Nat :=
  (atomic_number? s).getD 999

/-- Python `str.strip()` on the ASCII strings handled by the script:
drop leading and trailing whitespace characters. -/
def pyStrip (s : String) : String :=
  String.mk (((s.data.dropWhile Char.isWhitespace).reverse.dropWhile
    Char.isWhitespace).reverse)

/-- Python `str.lower()` (ASCII). -/
def pyLower (s : String) : String :=
  String.mk (s.data.map Char.toLower)

/-- Python `cleaned[0].upper() + cleaned[1:].lower()` (ASCII). -/
def pyCapitalize (s : String) : String :=
  match s.data with
  | [] => ""
  | c :: cs => String.mk (c.toUpper :: cs.map Char.toLower)

/-- `normalize_element_symbol` (lines 71-79): strip, capitalize
first-upper-rest-lower, and require membership in `atomic_numbers`. -/
def normalize_element_symbol (symbol : String) : Except Err String :=
  let cleaned := pyStrip symbol
  if cleaned = "" then .error .emptySymbol
  else
    let normalized := pyCapitalize cleaned
    if (atomic_number? normalized).isSome then .ok normalized
    else .error (.invalidElement symbol)

/-- The result of `parse_frame_option`: the slice `":"` (all frames) or a
single integer index. -/
inductive FrameIndex where
  | all
  | idx (i : Int)
  deriving DecidableEq, Repr

/-- The value of a non-empty digit string. -/
def digitsVal (ds : List Char) : Nat :=
  ds.foldl (fun a c => 10 * a + (c.toNat - '0'.toNat)) 0

/-- Python `int(s)` on the plain decimal forms (an optional minus sign
followed by digits), the shape of the script's frame arguments.  (Python
additionally tolerates surrounding whitespace, a plus sign and digit-group
underscores.) -/
def pyInt? (s : String) : Option Int :=
  match s.data with
  | [] => none
  | '-' :: ds =>
    if ds ≠ [] ∧ ds.all Char.isDigit then some (-(digitsVal ds : Int)) else none
  | ds =>
    if ds.all Char.isDigit then some (digitsVal ds : Int) else none

/-- `parse_frame_option` (lines 43-49): accept `"all"` case-insensitively,
otherwise try `int(...)`, otherwise fail. -/
def parse_frame_option (frame_option : String) : Except Err FrameIndex :=
  if pyLower frame_option = "all" then .ok .all
  else
    match pyInt? frame_option with
    | some i => .ok (.idx i)
    | none => .error .invalidFrameOption

/-! ### Counting engine: structure-file path -/

/-- One frame of the trajectory as returned by `ase.io.read`: the
per-atom chemical symbols (`atoms.get_chemical_symbols()`) and the optional
`atoms.info["structure_name"]` metadata entry (stringified). -/
structure Frame where
  structure_name : Option String
  symbols : List String
  deriving DecidableEq, Repr

/-- The deduplication key of a frame: `none` models
`structure_name is None or str(structure_name).strip() == ""`; otherwise the
(untrimmed) `str(structure_name)` used as the key. -/
def frameKey (f : Frame) : Option String :=
  match f.structure_name with
  | none => none
  | some s => if pyStrip s = "" then none else some s

/-- The loop of `unique_frames_by_structure_name` (lines 114-125):
walk the frames with a running index, a seen-name set, the retained unique
frames and the offending indices, all accumulated in order. -/
def uniqueFramesGo : List Frame → Nat → List String → List Frame → List Nat →
    List Frame × List Nat
  | [], _, _, uniq, missing => (uniq, missing)
  | f :: rest, idx, seen, uniq, missing =>
    match frameKey f with
    | none => uniqueFramesGo rest (idx + 1) seen uniq (missing ++ [idx])
    | some k =>
      if k ∈ seen then uniqueFramesGo rest (idx + 1) seen uniq missing
      else uniqueFramesGo rest (idx + 1) (seen ++ [k]) (uniq ++ [f]) missing

/-- `unique_frames_by_structure_name` (lines 109-135): keep the first frame per
distinct non-empty structure name; if any frame has a missing/empty name, fail
with the first 10 offending indices and an ellipsis flag for `> 10`. -/
def unique_frames_by_structure_name (frames : List Frame) : Except Err (List Frame) :=
  let r := uniqueFramesGo frames 0 [] [] []
  if r.2 = [] then .ok r.1
  else .error (.missingStructureNames (r.2.take 10) (decide (10 < r.2.length)))

/-- One `Counter.update` step for a single symbol: increment the entry if the
key is present, else append a fresh entry (dict insertion order). -/
def counter_update (c : List (String × Nat)) (s : String) : List (String × Nat) :=
  match c with
  | [] => [(s, 1)]
  | (k, n) :: rest =>
    if k = s then (k, n + 1) :: rest else (k, n) :: counter_update rest s

/-- `Counter()` updated with a stream of symbols. -/
def counterFold (xs : List String) : List (String × Nat) :=
  xs.foldl counter_update []

/-- The symbol stream of the counting loop (lines 160-162): every atom of
every retained frame whose symbol is not excluded, in order. -/
def countStream (frames : List Frame) (exclude_set : List String) : List String :=
  frames.flatMap (fun f => f.symbols.filter (fun s => s ∉ exclude_set))

/-- `ase.io.read(path, index=...)`: `":"` yields every frame, an integer yields
exactly one frame by position with negative indices counted from the end
(out-of-range indices raise inside the reader). -/
def select_frames (file_frames : List Frame) : FrameIndex → Except Err (List Frame)
  | .all => .ok file_frames
  | .idx i =>
    let n := file_frames.length
    let j : Int := if i < 0 then (n : Int) + i else i
    if h : 0 ≤ j ∧ j < (n : Int) then
      .ok [file_frames.get ⟨j.toNat, by omega⟩]
    else .error .readIndexOutOfRange

/-- The counting-and-emptiness-check stage of `element_counts_from_xyz`
(lines 159-172): count the non-excluded symbols of the retained frames and
fail when nothing is left, distinguishing the two empty-data messages.  The
after-exclusion message interpolates the excluded set sorted by atomic
number. -/
def count_frames (frames : List Frame) (exclude_set : List String) :
    Except Err (List (String × Nat)) :=
  let counts := counterFold (countStream frames exclude_set)
  if counts = [] then
    if exclude_set ≠ [] then
      .error (.noAtomsAfterExclusion
        (List.insertionSort (fun a b => zd a ≤ zd b) exclude_set))
    else .error .noAtoms
  else .ok counts

/-- `element_counts_from_xyz` (lines 138-172), parameterised by the frames of
the input file (the contents `ase.io.read` sees).  `exclude_elements` is the
already-parsed exclusion list.  Each raising call of the Python source is an
early-returning `match` here. -/
def element_counts_from_xyz (file_frames : List Frame) (frame_option : String)
    (unique_structure : Bool) (exclude_elements : List String) :
    Except Err (List (String × Nat) × Nat × Nat) :=
  match parse_frame_option frame_option with
  | .error e => .error e
  | .ok index =>
    match select_frames file_frames index with
    | .error e => .error e
    | .ok frames =>
      let total_frames := frames.length
      match (if unique_structure ∧ total_frames > 1 then
          unique_frames_by_structure_name frames
        else .ok frames) with
      | .error e => .error e
      | .ok frames' =>
        let selected_frames := frames'.length
        match count_frames frames' exclude_elements with
        | .error e => .error e
        | .ok counts => .ok (counts, total_frames, selected_frames)

/-! ### Transform layer -/

/-- `counts[e]` for a key known to be present (Python dict indexing). -/
def lookupCount (counts : List (String × Nat)) (e : String) : Nat :=
  (((counts.find? (fun p => p.1 = e)).map Prod.snd).getD 0)

/-- `counts_to_dataframe` (lines 175-182): sort the keys by
`atomic_numbers.get(e, 999)` (Python `sorted` is stable, as is insertion
sort) and pair each with its count. -/
def counts_to_dataframe (counts : List (String × Nat)) : List (String × Nat) :=
  let elements := List.insertionSort (fun a b => zd a ≤ zd b) (counts.map Prod.fst)
  elements.map (fun e => (e, lookupCount counts e))

/-- The heterogeneous `(plot_df, csv_df, column_data, cbar_title,
float_decimals)` return value of `build_plot_and_csv_data`; the dataframes
carry different columns per mode. -/
inductive BuildOutput where
  | raw (plot_df : List (String × Nat)) (csv_df : List (String × Nat))
      (column_data : String) (cbar_title : String) (float_decimals : Nat)
  | fraction (plot_df : List (String × ℚ)) (csv_df : List (String × Nat × ℚ))
      (column_data : String) (cbar_title : String) (float_decimals : Nat)
  | logFraction (plot_df : List (String × ℝ))
      (csv_df : List (String × Nat × ℚ × ℝ))
      (column_data : String) (cbar_title : String) (float_decimals : Nat)

/-- `build_plot_and_csv_data` (lines 185-218).  Divisions are idealised as
exact rationals and `math.log10` as the real `logb 10`.  Pandas `.max()` of an
empty column is `NaN` and `NaN <= 0` is false, so on an empty count map the
fraction branch silently produces empty dataframes; the `maximum = none` case
reproduces that. -/
noncomputable def build_plot_and_csv_data (counts : List (String × Nat))
    (fraction_mode log_fraction_mode : Bool) : Except Err BuildOutput :=
  let counts_df := counts_to_dataframe counts
  if ¬fraction_mode then
    .ok (.raw counts_df counts_df "element_count" "Count" 0)
  else
    match (counts_df.map Prod.snd).maximum with
    | none =>
      if log_fraction_mode then
        .ok (.logFraction [] [] "element_fraction_log10" "log(Element fraction)" 3)
      else .ok (.fraction [] [] "element_fraction" "Element fraction" 3)
    | some max_count =>
      if max_count ≤ 0 then .error .nonPositiveMaxCount
      else
        let fraction_rows := counts_df.map
          (fun p => (p.1, p.2, ((p.2 : ℚ) / (max_count : ℚ))))
        if log_fraction_mode then
          if fraction_rows.any (fun r => r.2.2 ≤ 0) then
            .error .nonPositiveFraction
          else
            let log_rows := fraction_rows.map
              (fun r => (r.1, r.2.1, r.2.2, Real.logb 10 ((r.2.2 : ℚ) : ℝ)))
            .ok (.logFraction (log_rows.map (fun r => (r.1, r.2.2.2))) log_rows
              "element_fraction_log10" "log(Element fraction)" 3)
        else
          .ok (.fraction (fraction_rows.map (fun r => (r.1, r.2.2))) fraction_rows
            "element_fraction" "Element fraction" 3)

/-! ### Counting engine: CSV path -/

/-- One dataframe cell: missing (`NaN`), a string, or a number. -/
inductive Cell where
  | na
  | str (s : String)
  | num (q : ℚ)
  deriving DecidableEq, Repr

def Cell.isNa : Cell → Bool
  | .na => true
  | _ => false

/-- `str(cell)` as applied by `.astype(str)` to a non-missing cell. -/
def cellToStr : Cell → String
  | .na => "nan"
  | .str s => s
  | .num q => toString q

/-- `pd.to_numeric(..., errors="raise")` on a cell of the already
type-inferred table: numeric cells pass through; a remaining string cell (a
mixed-type column) is modelled as failing.  (Pandas would additionally coerce
a numeric-looking string; the script's tables are type-inferred by
`pd.read_csv`, so numeric data arrives as numbers.) -/
def toNumeric : Cell → Except Err ℚ
  | .num q => .ok q
  | .str s => .error (.csvNonNumericCount s)
  | .na => .error (.csvNonNumericCount "nan")

/-- A parsed CSV table as `pd.read_csv` returns it: named columns and rows of
cells (rows are rectangular, missing values are `Cell.na`). -/
structure RawCsv where
  columns : List String
  rows : List (List Cell)
  deriving DecidableEq, Repr

/-- Column selection of `element_counts_from_csv` (lines 232-241): the columns
literally named `"Element"` and `"element_count"` when both exist, else the
first two columns positionally, else an error. -/
def select_columns (t : RawCsv) : Except Err (List (Cell × Cell)) :=
  if "Element" ∈ t.columns ∧ "element_count" ∈ t.columns then
    let ei := (t.columns.findIdx? (· = "Element")).getD 0
    let ci := (t.columns.findIdx? (· = "element_count")).getD 0
    .ok (t.rows.map (fun r => ((r.get? ei).getD .na, (r.get? ci).getD .na)))
  else if 2 ≤ t.columns.length then
    .ok (t.rows.map (fun r => ((r.get? 0).getD .na, (r.get? 1).getD .na)))
  else .error .csvTooFewColumns

/-- `df.groupby("Element").sum().sort_values(...)` (lines 271-275): one row
per distinct symbol with the counts of its duplicates summed, ordered by
atomic number.  (Distinct valid symbols have distinct atomic numbers, so the
sort order is unique.) -/
def group_and_sort (rows : List (String × Nat)) : List (String × Nat) :=
  let keys := List.insertionSort (fun a b => zd a ≤ zd b) (rows.map Prod.fst).dedup
  keys.map (fun k => (k, ((rows.filter (fun r => r.1 = k)).map Prod.snd).sum))

/-- Lines 244-277 of `element_counts_from_csv`: everything after `dropna`,
operating on the kept (non-missing) rows.  Each raising statement of the
Python source is an early-returning branch; the column normalizations, the
validations, the exclusion filter and the group-sort appear in source
order. -/
def csv_count_stage (kept : List (Cell × Cell))
    (exclude_elements : List String) : Except Err (List (String × Nat)) :=
  if kept.isEmpty then .error .csvNoValidRows
  else
    match kept.mapM (fun p => normalize_element_symbol (cellToStr p.1)) with
    | .error e => .error e
    | .ok syms =>
      match kept.mapM (fun p => toNumeric p.2) with
      | .error e => .error e
      | .ok qs =>
        if qs.any (fun q => q < 0) then .error .csvNegativeCounts
        else if qs.any (fun q => ¬q.isInt) then .error .csvNonIntegerCounts
        else
          let rows := syms.zip (qs.map (fun q => q.num.toNat))
          let rows' :=
            if exclude_elements ≠ [] then
              rows.filter (fun r => r.1 ∉ exclude_elements)
            else rows
          if rows'.isEmpty then
            if exclude_elements ≠ [] then
              .error (.csvNoCountsAfterExclusion
                (List.insertionSort (fun a b => zd a ≤ zd b)
                  exclude_elements))
            else .error .csvNoCountsAfterFiltering
          else .ok (group_and_sort rows')

/-- `element_counts_from_csv` (lines 221-277), starting from the parsed table
(`pd.read_csv` itself is external; an unreadable file raises before this
logic): emptiness check, column selection, `dropna`, then the counting
stage. -/
def element_counts_from_csv (t : RawCsv) (exclude_elements : List String) :
    Except Err (List (String × Nat)) :=
  if t.rows.isEmpty then .error .csvNoRows
  else
    match select_columns t with
    | .error e => .error e
    | .ok pairs =>
      csv_count_stage (pairs.filter (fun p => ¬p.1.isNa ∧ ¬p.2.isNa))
        exclude_elements

/-- `df.to_csv` of the raw-mode export table followed by `pd.read_csv` of the
written file: the header names both columns, element symbols come back as
strings and integer counts as numbers (integers and plain symbols survive the
CSV text round trip unchanged). -/
def export_then_read_csv (csv_df : List (String × Nat)) : RawCsv :=
  { columns := ["Element", "element_count"],
    rows := csv_df.map (fun p => [Cell.str p.1, Cell.num (p.2 : ℚ)]) }

/-! ### Render adapter: adaptive text colours -/

/-- A hexadecimal digit as accepted by `int(_, 16)` on a plain digit. -/
def hexDigitVal (c : Char) : Option Nat :=
  if '0' ≤ c ∧ c ≤ '9' then some (c.toNat - '0'.toNat)
  else if 'a' ≤ c ∧ c ≤ 'f' then some (c.toNat - 'a'.toNat + 10)
  else if 'A' ≤ c ∧ c ≤ 'F' then some (c.toNat - 'A'.toNat + 10)
  else none

/-- `int(two_hex_chars, 16)` for the plain two-digit substrings produced by
slicing a colour string.  (Python's `int` additionally tolerates surrounding
whitespace and signs; colour channels are plain digits.) -/
def hexPair (c₁ c₂ : Char) : Option Nat := do
  let h ← hexDigitVal c₁
  let l ← hexDigitVal c₂
  pure (16 * h + l)

/-- The string-validation and channel-parsing prefix of `text_color_for_fill`
(lines 314-331): strip, require a leading `#`, expand 3-digit shorthand by
doubling each character, require 6 digits, and parse the three channels;
`none` models every early `return "#000000"` of the validation chain. -/
def parse_fill_rgb (hex_color : String) : Option (Nat × Nat × Nat) :=
  let color := pyStrip hex_color
  match color.data with
  | '#' :: rest =>
    let cs := if rest.length = 3 then rest.flatMap (fun c => [c, c]) else rest
    match cs with
    | [c₁, c₂, c₃, c₄, c₅, c₆] => do
      let r ← hexPair c₁ c₂
      let g ← hexPair c₃ c₄
      let b ← hexPair c₅ c₆
      pure (r, g, b)
    | _ => none
  | _ => none

/-- `srgb_to_linear` (lines 333-334): `x / 12.92` below the 0.04045 knee,
else `((x + 0.055) / 1.055) ** 2.4`. -/
noncomputable def srgb_to_linear (x : ℝ) : ℝ :=
  if x ≤ 0.04045 then x / 12.92 else ((x + 0.055) / 1.055) ^ (2.4 : ℝ)

/-- The luminance of lines 336-340 for 8-bit channels: the channels scaled to
`[0,1]`, linearised, and weighted 0.2126/0.7152/0.0722. -/
noncomputable def luminance (r g b : Nat) : ℝ :=
  0.2126 * srgb_to_linear ((r : ℝ) / 255)
    + 0.7152 * srgb_to_linear ((g : ℝ) / 255)
    + 0.0722 * srgb_to_linear ((b : ℝ) / 255)

/-- `text_color_for_fill` (lines 314-341): white below luminance 0.45, black
otherwise, black for every string that fails validation. -/
noncomputable def text_color_for_fill (hex_color : String) : String :=
  match parse_fill_rgb hex_color with
  | some (r, g, b) => if luminance r g b < 0.45 then "#FFFFFF" else "#000000"
  | none => "#000000"

/-- A bokeh data source holding per-cell columns `sym` and `type_color`, the
sources `apply_adaptive_text_colors` (lines 343-355) targets. -/
structure CellDataSource where
  sym : List String
  type_color : List String

/-- The `text_color` column `apply_adaptive_text_colors` stores on a matching
data source (lines 350-354): all black when `force_black_text` is set (one
entry per `sym` cell), else `text_color_for_fill` of each fill colour. -/
noncomputable def assigned_text_colors (src : CellDataSource)
    (force_black_text : Bool) : List String :=
  if force_black_text then List.replicate src.sym.length "#000000"
  else src.type_color.map text_color_for_fill

/-! ### CLI driver -/

/-- The parsed command-line flags that the validation rules of `main`
(lines 603-622) inspect.  `frame` is the raw string of `--frame` (default
`"all"`); `input_is_csv` is `args.input_data.suffix.lower() == ".csv"`;
colour bounds are idealised floats.  `exclude_elements` parsing and colormap
resolution happen before these rules and are external to this model. -/
structure Args where
  frame : String
  unique_structure : Bool
  log_scale : Bool
  fraction : Bool
  log_fraction : Bool
  color_min : Option ℚ
  color_max : Option ℚ
  input_is_csv : Bool

/-- The condition of line 610-615: both colour bounds given and
`color_min >= color_max`. -/
def colorRangeInvalid : Option ℚ → Option ℚ → Bool
  | some lo, some hi => lo ≥ hi
  | _, _ => false

/-- The validation-and-counting prefix of `main` (lines 603-635): the five
mutual-exclusion rules in source order, then the ingestion path selected by
the input suffix.  The contents of the input file enter only through
`file_frames` (structure input) or `csv` (CSV input); the returned frame
counters are `None` for CSV input. -/
def main_validate_and_count (a : Args) (exclude_elements : List String)
    (file_frames : List Frame) (csv : RawCsv) :
    Except Err (List (String × Nat) × Option Nat × Option Nat) :=
  if a.log_fraction ∧ ¬a.fraction then .error .logFractionRequiresFraction
  else if a.log_fraction ∧ a.log_scale then .error .logFractionWithLogScale
  else if colorRangeInvalid a.color_min a.color_max then
    .error .colorMinNotLessThanMax
  else if a.input_is_csv then
    if a.unique_structure then .error .uniqueStructureWithCsv
    else if a.frame ≠ "all" then .error .frameWithCsv
    else
      match element_counts_from_csv csv exclude_elements with
      | .error e => .error e
      | .ok counts => .ok (counts, none, none)
  else
    match element_counts_from_xyz file_frames a.frame a.unique_structure
        exclude_elements with
    | .error e => .error e
    | .ok (counts, total, selected) => .ok (counts, some total, some selected)

/-- The five argument-validation errors of `main` (raised before any input
data is counted). -/
def Err.isArgumentError : Err → Bool
  | .logFractionRequiresFraction => true
  | .logFractionWithLogScale => true
  | .colorMinNotLessThanMax => true
  | .uniqueStructureWithCsv => true
  | .frameWithCsv => true
  | _ => false

/-! ### Lemmas: atomic numbers and symbol validity -/

theorem idxOf?_get {s : String} : ∀ {l : List String} {i : Nat},
    idxOf? s l = some i → ∃ h : i < l.length, l.get ⟨i, h⟩ = s := by
  intro l
  induction l with
  | nil => intro i h; simp [idxOf?] at h
  | cons t rest ih =>
    intro i h
    by_cases ht : t = s
    · simp [idxOf?, ht] at h
      subst h
      exact ⟨by simp, ht⟩
    · simp [idxOf?, ht] at h
      obtain ⟨j, hj, rfl⟩ := h
      obtain ⟨hlt, hget⟩ := ih hj
      exact ⟨by simpa using Nat.succ_lt_succ hlt, hget⟩

theorem idxOf?_isSome_iff {s : String} : ∀ {l : List String},
    (idxOf? s l).isSome ↔ s ∈ l := by
  intro l
  induction l with
  | nil => simp [idxOf?]
  | cons t rest ih =>
    by_cases ht : t = s
    · simp [idxOf?, ht]
    · simp [idxOf?, ht, Option.isSome_map, ih, Ne.symm ht]

/-- A symbol is valid (a key of `atomic_numbers`) iff it occurs in
`chemical_symbols`. -/
theorem atomic_number?_isSome_iff {s : String} :
    (atomic_number? s).isSome ↔ s ∈ chemical_symbols :=
  idxOf?_isSome_iff

/-- Two valid symbols with the same sort key are equal: the sort by atomic
number is strict on valid symbols. -/
theorem zd_injOn {a b : String} (ha : (atomic_number? a).isSome)
    (hb : (atomic_number? b).isSome) (hz : zd a = zd b) : a = b := by
  obtain ⟨i, hi⟩ := Option.isSome_iff_exists.mp ha
  obtain ⟨j, hj⟩ := Option.isSome_iff_exists.mp hb
  obtain ⟨hia, hga⟩ := idxOf?_get hi
  obtain ⟨hjb, hgb⟩ := idxOf?_get hj
  have : i = j := by simpa [zd, hi, hj] using hz
  subst this
  rw [← hga, ← hgb]

set_option maxRecDepth 20000 in
/-- Every canonical symbol is a fixed point of normalization. -/
theorem normalize_fixpoint : ∀ s ∈ chemical_symbols,
    normalize_element_symbol s = .ok s := by decide

/-- A successful normalization returns a valid symbol. -/
theorem normalize_valid {s r : String}
    (h : normalize_element_symbol s = .ok r) : (atomic_number? r).isSome := by
  by_cases h1 : pyStrip s = ""
  · simp [normalize_element_symbol, h1] at h
  · by_cases h2 : (atomic_number? (pyCapitalize (pyStrip s))).isSome
    · simp [normalize_element_symbol, h1, h2] at h
      rw [← h]
      exact h2
    · simp [normalize_element_symbol, h1, h2] at h

/-! ### Lemmas: the sort relation -/

instance : IsTotal String (fun a b => zd a ≤ zd b) :=
  ⟨fun a b => Nat.le_total (zd a) (zd b)⟩

instance : IsTrans String (fun a b => zd a ≤ zd b) :=
  ⟨fun _ _ _ hab hbc => Nat.le_trans hab hbc⟩

/-- The sorted key list of `counts_to_dataframe`/`group_and_sort`. -/
def sortByZ (l : List String) : List String :=
  List.insertionSort (fun a b => zd a ≤ zd b) l

theorem sortByZ_perm (l : List String) : List.Perm (sortByZ l) l :=
  List.perm_insertionSort _ l

theorem sortByZ_sorted (l : List String) :
    List.Sorted (fun a b => zd a ≤ zd b) (sortByZ l) :=
  List.sorted_insertionSort _ l

/-- On lists of distinct valid symbols, the sorted keys are strictly
increasing in atomic number. -/
theorem sortByZ_strict {l : List String} (hnd : l.Nodup)
    (hv : ∀ s ∈ l, (atomic_number? s).isSome) :
    List.Pairwise (fun a b => zd a < zd b) (sortByZ l) := by
  have hnd' : (sortByZ l).Nodup := (sortByZ_perm l).nodup_iff.mpr hnd
  have hv' : ∀ s ∈ sortByZ l, (atomic_number? s).isSome := fun s hs =>
    hv s ((sortByZ_perm l).mem_iff.mp hs)
  have hs := sortByZ_sorted l
  rw [List.Sorted] at hs
  have := hs.and hnd'
  refine List.Pairwise.imp_of_mem ?_ this
  intro a b ha hb hab
  rcases Nat.lt_or_ge (zd a) (zd b) with h | h
  · exact h
  · exact absurd (zd_injOn (hv' a ha) (hv' b hb) (Nat.le_antisymm hab.1 h))
      hab.2

/-! ### Lemmas: the Counter model -/

theorem counter_update_keys (c : List (String × Nat)) (s : String) :
    (counter_update c s).map Prod.fst =
      if s ∈ c.map Prod.fst then c.map Prod.fst else c.map Prod.fst ++ [s] := by
  induction c with
  | nil => simp [counter_update]
  | cons p rest ih =>
    obtain ⟨k, n⟩ := p
    by_cases hk : k = s
    · simp [counter_update, hk]
    · simp only [counter_update, if_neg hk, List.map_cons, ih]
      by_cases hs : s ∈ rest.map Prod.fst
      · simp [hs, Ne.symm hk]
      · simp [hs, Ne.symm hk]

theorem counter_update_lookup (c : List (String × Nat)) (s e : String) :
    lookupCount (counter_update c s) e =
      lookupCount c e + (if e = s then 1 else 0) := by
  induction c with
  | nil =>
    by_cases he : s = e
    · simp [counter_update, lookupCount, he]
    · simp [counter_update, lookupCount, List.find?, he, Ne.symm he]
  | cons p rest ih =>
    obtain ⟨k, n⟩ := p
    by_cases hk : k = s
    · subst hk
      by_cases he : k = e
      · simp [counter_update, lookupCount, List.find?, he]
      · simp [counter_update, lookupCount, List.find?, he, Ne.symm he]
    · by_cases he : k = e
      · subst he
        simp [counter_update, lookupCount, List.find?, hk, Ne.symm hk]
      · simp only [counter_update, if_neg hk]
        simpa [lookupCount, List.find?, he] using ih

theorem counter_update_nodup {c : List (String × Nat)} (s : String)
    (h : (c.map Prod.fst).Nodup) : ((counter_update c s).map Prod.fst).Nodup := by
  rw [counter_update_keys]
  split
  · exact h
  · rename_i hs
    simpa [List.nodup_append, hs] using h

theorem foldl_counter_nodup (xs : List String) :
    ∀ {a : List (String × Nat)}, (a.map Prod.fst).Nodup →
      ((xs.foldl counter_update a).map Prod.fst).Nodup := by
  induction xs with
  | nil => intro a h; simpa using h
  | cons x rest ih =>
    intro a h
    exact ih (counter_update_nodup x h)

theorem lookupCount_cons (k : String) (v : Nat) (rest : List (String × Nat))
    (e : String) :
    lookupCount ((k, v) :: rest) e = if k = e then v else lookupCount rest e := by
  by_cases h : k = e <;> simp [lookupCount, List.find?, h]

theorem foldl_counter_lookup (xs : List String) :
    ∀ (a : List (String × Nat)) (e : String),
      lookupCount (xs.foldl counter_update a) e = lookupCount a e + xs.count e := by
  induction xs with
  | nil => intro a e; simp
  | cons x rest ih =>
    intro a e
    rw [List.foldl_cons, ih, counter_update_lookup, List.count_cons]
    by_cases he : e = x
    · subst he
      simp
      omega
    · simp [he, Ne.symm he]

theorem foldl_counter_mem (xs : List String) :
    ∀ (a : List (String × Nat)) (e : String),
      e ∈ (xs.foldl counter_update a).map Prod.fst ↔
        e ∈ a.map Prod.fst ∨ e ∈ xs := by
  induction xs with
  | nil => intro a e; simp
  | cons x rest ih =>
    intro a e
    rw [List.foldl_cons, ih, counter_update_keys]
    by_cases hx : x ∈ a.map Prod.fst
    · simp only [if_pos hx, List.mem_cons]
      constructor
      · rintro (h | h)
        · exact Or.inl h
        · exact Or.inr (Or.inr h)
      · rintro (h | rfl | h)
        · exact Or.inl h
        · exact Or.inl hx
        · exact Or.inr h
    · simp only [if_neg hx, List.mem_append, List.mem_singleton, List.mem_cons]
      tauto

theorem counterFold_nodup (xs : List String) :
    ((counterFold xs).map Prod.fst).Nodup :=
  foldl_counter_nodup xs (by simp)

theorem counterFold_lookup (xs : List String) (e : String) :
    lookupCount (counterFold xs) e = xs.count e := by
  simpa [lookupCount] using foldl_counter_lookup xs [] e

theorem counterFold_mem_keys (xs : List String) (e : String) :
    e ∈ (counterFold xs).map Prod.fst ↔ e ∈ xs := by
  simpa using foldl_counter_mem xs [] e

/-- Association-list membership via keys and lookup, when the keys are
distinct. -/
theorem assoc_mem_iff {c : List (String × Nat)} (hnd : (c.map Prod.fst).Nodup)
    (e : String) (n : Nat) :
    (e, n) ∈ c ↔ e ∈ c.map Prod.fst ∧ lookupCount c e = n := by
  induction c with
  | nil => simp
  | cons p rest ih =>
    obtain ⟨k, v⟩ := p
    simp only [List.map_cons, List.nodup_cons] at hnd
    rw [lookupCount_cons]
    rcases eq_or_ne k e with rfl | he
    · constructor
      · intro hmem
        rcases List.mem_cons.mp hmem with heq | hmem'
        · cases heq
          exact ⟨by simp, by simp⟩
        · exact absurd (List.mem_map_of_mem Prod.fst hmem') (by simpa using hnd.1)
      · rintro ⟨-, h⟩
        rw [if_pos rfl] at h
        subst h
        exact List.mem_cons_self _ _
    · constructor
      · intro hmem
        rcases List.mem_cons.mp hmem with heq | hmem'
        · have : e = k := congrArg Prod.fst heq
          exact absurd this.symm he
        · obtain ⟨hm, hl⟩ := (ih hnd.2).mp hmem'
          exact ⟨by simp [hm], by rw [if_neg he, hl]⟩
      · rintro ⟨hm, hl⟩
        rw [if_neg he] at hl
        rcases (by simpa using hm : e = k ∨ e ∈ rest.map Prod.fst) with rfl | hm'
        · exact absurd rfl he
        · exact List.mem_cons_of_mem _ ((ih hnd.2).mpr ⟨hm', hl⟩)

theorem counterFold_mem_iff (xs : List String) (e : String) (n : Nat) :
    (e, n) ∈ counterFold xs ↔ e ∈ xs ∧ xs.count e = n := by
  rw [assoc_mem_iff (counterFold_nodup xs), counterFold_mem_keys,
    counterFold_lookup]

theorem counterFold_pos {xs : List String} {p : String × Nat}
    (h : p ∈ counterFold xs) : 0 < p.2 := by
  obtain ⟨e, n⟩ := p
  obtain ⟨hm, hc⟩ := (counterFold_mem_iff xs e n).mp h
  simpa [← hc] using List.count_pos_iff.mpr hm

theorem counterFold_eq_nil_iff (xs : List String) :
    counterFold xs = [] ↔ xs = [] := by
  constructor
  · intro h
    cases xs with
    | nil => rfl
    | cons x rest =>
      have := (counterFold_mem_keys (x :: rest) x).mpr (by simp)
      rw [h] at this
      simp at this
  · rintro rfl
    rfl

/-! ### Lemmas: `counts_to_dataframe` and `group_and_sort` -/

theorem counts_to_dataframe_keys (c : List (String × Nat)) :
    (counts_to_dataframe c).map Prod.fst = sortByZ (c.map Prod.fst) := by
  simp [counts_to_dataframe, sortByZ, List.map_map, Function.comp_def]

theorem counts_to_dataframe_mem (c : List (String × Nat)) (e : String) (n : Nat) :
    (e, n) ∈ counts_to_dataframe c ↔
      e ∈ c.map Prod.fst ∧ lookupCount c e = n := by
  simp only [counts_to_dataframe]
  constructor
  · intro h
    obtain ⟨x, hx, hfx⟩ := List.mem_map.mp h
    cases hfx
    exact ⟨(sortByZ_perm _).mem_iff.mp hx, rfl⟩
  · rintro ⟨hm, rfl⟩
    exact List.mem_map.mpr ⟨e, (sortByZ_perm _).mem_iff.mpr hm, rfl⟩

/-- Rebuilding an association list with distinct keys from its key list and
lookups returns the very list. -/
theorem assoc_reconstruct_lookup {c : List (String × Nat)}
    (hnd : (c.map Prod.fst).Nodup) :
    (c.map Prod.fst).map (fun e => (e, lookupCount c e)) = c := by
  induction c with
  | nil => rfl
  | cons p rest ih =>
    obtain ⟨k, v⟩ := p
    simp only [List.map_cons, List.nodup_cons] at hnd
    simp only [List.map_cons]
    rw [lookupCount_cons, if_pos rfl]
    congr 1
    have hstep : ∀ e ∈ rest.map Prod.fst,
        lookupCount ((k, v) :: rest) e = lookupCount rest e := by
      intro e he
      rw [lookupCount_cons, if_neg]
      intro hk
      exact hnd.1 (hk ▸ he)
    calc (rest.map Prod.fst).map (fun e => (e, lookupCount ((k, v) :: rest) e))
        = (rest.map Prod.fst).map (fun e => (e, lookupCount rest e)) :=
          List.map_congr_left (fun e he => by rw [hstep e he])
      _ = rest := ih hnd.2

theorem counts_to_dataframe_perm {c : List (String × Nat)}
    (hnd : (c.map Prod.fst).Nodup) :
    List.Perm (counts_to_dataframe c) c := by
  have := (sortByZ_perm (c.map Prod.fst)).map (fun e => (e, lookupCount c e))
  rw [assoc_reconstruct_lookup hnd] at this
  exact this

theorem counts_to_dataframe_pairwise {c : List (String × Nat)}
    (hnd : (c.map Prod.fst).Nodup)
    (hv : ∀ e ∈ c.map Prod.fst, (atomic_number? e).isSome) :
    List.Pairwise (fun p q => zd p.1 < zd q.1) (counts_to_dataframe c) := by
  have := sortByZ_strict hnd hv
  rw [counts_to_dataframe]
  rw [List.pairwise_map]
  exact this

theorem group_and_sort_keys (rows : List (String × Nat)) :
    (group_and_sort rows).map Prod.fst = sortByZ (rows.map Prod.fst).dedup := by
  simp [group_and_sort, sortByZ, List.map_map, Function.comp_def]

theorem group_and_sort_mem (rows : List (String × Nat)) (k : String) (v : Nat) :
    (k, v) ∈ group_and_sort rows ↔
      k ∈ rows.map Prod.fst ∧
        v = ((rows.filter (fun r => r.1 = k)).map Prod.snd).sum := by
  simp only [group_and_sort]
  constructor
  · intro h
    obtain ⟨x, hx, hfx⟩ := List.mem_map.mp h
    cases hfx
    exact ⟨List.mem_dedup.mp ((sortByZ_perm _).mem_iff.mp hx), rfl⟩
  · rintro ⟨hm, rfl⟩
    exact List.mem_map.mpr
      ⟨k, (sortByZ_perm _).mem_iff.mpr (List.mem_dedup.mpr hm), rfl⟩

theorem group_and_sort_nodup (rows : List (String × Nat)) :
    ((group_and_sort rows).map Prod.fst).Nodup := by
  rw [group_and_sort_keys]
  exact (sortByZ_perm _).nodup_iff.mpr (List.nodup_dedup _)

theorem group_and_sort_pairwise {rows : List (String × Nat)}
    (hv : ∀ k ∈ rows.map Prod.fst, (atomic_number? k).isSome) :
    List.Pairwise (fun p q => zd p.1 < zd q.1) (group_and_sort rows) := by
  have := sortByZ_strict (List.nodup_dedup (rows.map Prod.fst))
    (fun s hs => hv s (List.mem_dedup.mp hs))
  rw [group_and_sort]
  rw [List.pairwise_map]
  exact this

/-- Rebuilding an association list with distinct keys from per-key sums
returns the very list. -/
theorem assoc_reconstruct_sum {rows : List (String × Nat)}
    (hnd : (rows.map Prod.fst).Nodup) :
    (rows.map Prod.fst).map
      (fun k => (k, ((rows.filter (fun r => r.1 = k)).map Prod.snd).sum)) = rows := by
  induction rows with
  | nil => rfl
  | cons p rest ih =>
    obtain ⟨k, v⟩ := p
    simp only [List.map_cons, List.nodup_cons] at hnd
    simp only [List.map_cons]
    have hhead : ((((k, v) :: rest).filter (fun r => r.1 = k)).map Prod.snd).sum = v := by
      have : rest.filter (fun r => r.1 = k) = [] := by
        rw [List.filter_eq_nil_iff]
        intro a ha
        simp only [decide_eq_true_eq]
        intro hk
        exact hnd.1 (hk ▸ List.mem_map_of_mem Prod.fst ha)
      simp [List.filter_cons, this]
    rw [hhead]
    congr 1
    have hstep : ∀ e ∈ rest.map Prod.fst,
        (((k, v) :: rest).filter (fun r => r.1 = e)) = rest.filter (fun r => r.1 = e) := by
      intro e he
      rw [List.filter_cons]
      have : ¬(k = e) := fun hk => hnd.1 (hk ▸ he)
      simp [this]
    calc (rest.map Prod.fst).map
          (fun e => (e, ((((k, v) :: rest).filter (fun r => r.1 = e)).map Prod.snd).sum))
        = (rest.map Prod.fst).map
          (fun e => (e, ((rest.filter (fun r => r.1 = e)).map Prod.snd).sum)) :=
          List.map_congr_left (fun e he => by rw [hstep e he])
      _ = rest := ih hnd.2

/-- On a table whose keys are already distinct and sorted, grouping and
sorting is the identity. -/
theorem group_and_sort_eq_self {rows : List (String × Nat)}
    (hnd : (rows.map Prod.fst).Nodup)
    (hs : List.Sorted (fun a b => zd a ≤ zd b) (rows.map Prod.fst)) :
    group_and_sort rows = rows := by
  rw [group_and_sort]
  rw [show (rows.map Prod.fst).dedup = rows.map Prod.fst from hnd.dedup]
  rw [show List.insertionSort (fun a b => zd a ≤ zd b) (rows.map Prod.fst)
      = rows.map Prod.fst from hs.insertionSort_eq]
  exact assoc_reconstruct_sum hnd

/-! ### Lemmas: unique-structure deduplication -/

/-- Specification of first-per-name deduplication: keep each frame whose
non-empty name has not occurred before it (later frames with the same name
are removed); frames without a usable name are ignored. -/
def firstPerName : List Frame → List Frame
  | [] => []
  | f :: rest =>
    match frameKey f with
    | none => firstPerName rest
    | some k => f :: firstPerName (rest.filter (fun g => frameKey g ≠ some k))
termination_by l => l.length
decreasing_by
  · simp
  · exact Nat.lt_succ_of_le (List.length_filter_le _ _)

/-- The indices (starting at `i`) of the frames with a missing/empty
structure name. -/
def missingIndicesFrom : List Frame → Nat → List Nat
  | [], _ => []
  | f :: rest, i =>
    (if (frameKey f).isNone then [i] else []) ++ missingIndicesFrom rest (i + 1)

/-- A frame passes for the accumulator set `seen` when its name is usable and
not seen yet (nameless frames are handled separately). -/
def keyNotSeen (seen : List String) (g : Frame) : Bool :=
  match frameKey g with
  | some k => k ∉ seen
  | none => true

theorem firstPerName_nil : firstPerName [] = [] := by
  rw [firstPerName.eq_def]

theorem firstPerName_cons_none {f : Frame} {rest : List Frame}
    (h : frameKey f = none) :
    firstPerName (f :: rest) = firstPerName rest := by
  rw [firstPerName.eq_def]
  simp [h]

theorem firstPerName_cons_some {f : Frame} {rest : List Frame} {k : String}
    (h : frameKey f = some k) :
    firstPerName (f :: rest) =
      f :: firstPerName (rest.filter (fun g => frameKey g ≠ some k)) := by
  rw [firstPerName.eq_def]
  simp [h]

theorem uniqueFramesGo_missing : ∀ (frames : List Frame) (idx : Nat)
    (seen : List String) (uniq : List Frame) (missing : List Nat),
    (uniqueFramesGo frames idx seen uniq missing).2 =
      missing ++ missingIndicesFrom frames idx := by
  intro frames
  induction frames with
  | nil => intro idx seen uniq missing; simp [uniqueFramesGo, missingIndicesFrom]
  | cons f rest ih =>
    intro idx seen uniq missing
    cases hk : frameKey f with
    | none =>
      simp only [uniqueFramesGo, hk]
      rw [ih]
      simp [missingIndicesFrom, hk]
    | some k =>
      by_cases hs : k ∈ seen
      · simp only [uniqueFramesGo, hk, if_pos hs]
        rw [ih]
        simp [missingIndicesFrom, hk]
      · simp only [uniqueFramesGo, hk, if_neg hs]
        rw [ih]
        simp [missingIndicesFrom, hk]

theorem uniqueFramesGo_uniq : ∀ (frames : List Frame) (idx : Nat)
    (seen : List String) (uniq : List Frame) (missing : List Nat),
    (uniqueFramesGo frames idx seen uniq missing).1 =
      uniq ++ firstPerName (frames.filter (keyNotSeen seen)) := by
  intro frames
  induction frames with
  | nil => intro idx seen uniq missing; simp [uniqueFramesGo, firstPerName]
  | cons f rest ih =>
    intro idx seen uniq missing
    cases hk : frameKey f with
    | none =>
      have hpass : keyNotSeen seen f = true := by simp [keyNotSeen, hk]
      simp only [uniqueFramesGo, hk, List.filter_cons, hpass, if_true]
      rw [ih, firstPerName_cons_none hk]
    | some k =>
      by_cases hs : k ∈ seen
      · have hfail : keyNotSeen seen f = false := by simp [keyNotSeen, hk, hs]
        simp only [uniqueFramesGo, hk, if_pos hs, List.filter_cons, hfail]
        rw [ih]
        simp
      · have hpass : keyNotSeen seen f = true := by simp [keyNotSeen, hk, hs]
        simp only [uniqueFramesGo, hk, if_neg hs, List.filter_cons, hpass,
          if_true]
        rw [ih, firstPerName_cons_some hk]
        have hfilter : rest.filter (keyNotSeen (seen ++ [k])) =
            (rest.filter (keyNotSeen seen)).filter
              (fun g => frameKey g ≠ some k) := by
          rw [List.filter_filter]
          apply List.filter_congr
          intro g _
          cases hg : frameKey g with
          | none => simp [keyNotSeen, hg]
          | some k' =>
            simp only [keyNotSeen, hg, List.mem_append, List.mem_singleton,
              decide_not]
            by_cases hkk : k' = k
            · simp [hkk]
            · simp [hkk]
        rw [hfilter]
        simp only [List.append_assoc, List.singleton_append]

theorem missingIndicesFrom_eq_nil_iff : ∀ (frames : List Frame) (i : Nat),
    missingIndicesFrom frames i = [] ↔ ∀ f ∈ frames, (frameKey f).isSome := by
  intro frames
  induction frames with
  | nil => intro i; simp [missingIndicesFrom]
  | cons f rest ih =>
    intro i
    cases hk : frameKey f with
    | none => simp [missingIndicesFrom, hk]
    | some k => simp [missingIndicesFrom, hk, ih]

theorem missingIndicesFrom_mem : ∀ (frames : List Frame) (i j : Nat),
    j ∈ missingIndicesFrom frames i ↔
      ∃ t, ∃ h : t < frames.length, j = i + t ∧
        frameKey (frames.get ⟨t, h⟩) = none := by
  intro frames
  induction frames with
  | nil => intro i j; simp [missingIndicesFrom]
  | cons f rest ih =>
    intro i j
    by_cases hk : (frameKey f).isNone
    · have hknone : frameKey f = none := by simpa using hk
      simp only [missingIndicesFrom, if_pos hk, List.singleton_append,
        List.mem_cons, ih]
      constructor
      · rintro (rfl | ⟨t, h, rfl, hnone⟩)
        · exact ⟨0, by simp, by omega, by simpa using hknone⟩
        · refine ⟨t + 1, by simp only [List.length_cons]; omega, by omega, ?_⟩
          simpa using hnone
      · rintro ⟨t, h, rfl, hnone⟩
        cases t with
        | zero => exact Or.inl (by omega)
        | succ t' =>
          have h' : t' < rest.length := by
            simp only [List.length_cons] at h; omega
          refine Or.inr ⟨t', h', by omega, ?_⟩
          simpa using hnone
    · have hksome : frameKey f ≠ none := by simpa using hk
      simp only [missingIndicesFrom, if_neg hk, List.nil_append, ih]
      constructor
      · rintro ⟨t, h, rfl, hnone⟩
        refine ⟨t + 1, by simp only [List.length_cons]; omega, by omega, ?_⟩
        simpa using hnone
      · rintro ⟨t, h, rfl, hnone⟩
        cases t with
        | zero => exact absurd (by simpa using hnone) hksome
        | succ t' =>
          have h' : t' < rest.length := by
            simp only [List.length_cons] at h; omega
          refine ⟨t', h', by omega, ?_⟩
          simpa using hnone

/-- `unique_frames_by_structure_name` characterised: success yields the
first-per-name frames, failure reports the first ten offending indices with
an ellipsis marker for more. -/
theorem unique_frames_spec (frames : List Frame) :
    (missingIndicesFrom frames 0 = [] →
      unique_frames_by_structure_name frames = .ok (firstPerName frames))
    ∧ (missingIndicesFrom frames 0 ≠ [] →
      unique_frames_by_structure_name frames =
        .error (.missingStructureNames ((missingIndicesFrom frames 0).take 10)
          (decide (10 < (missingIndicesFrom frames 0).length)))) := by
  have hm := uniqueFramesGo_missing frames 0 [] [] []
  have hu := uniqueFramesGo_uniq frames 0 [] [] []
  simp only [List.nil_append] at hm hu
  have hfilter : frames.filter (keyNotSeen []) = frames := by
    apply List.filter_eq_self.mpr
    intro g _
    cases hg : frameKey g <;> simp [keyNotSeen, hg]
  constructor
  · intro h0
    rw [unique_frames_by_structure_name, hm, h0, if_pos rfl, hu, hfilter]
  · intro h0
    rw [unique_frames_by_structure_name, hm, if_neg h0]

/-! ### Lemmas: `Except` plumbing and the structure-file pipeline -/

theorem exc_bind_ok {α β : Type} (a : α) (f : α → Except Err β) :
    (Except.ok a >>= f) = f a := rfl

theorem exc_bind_error {α β : Type} (e : Err) (f : α → Except Err β) :
    ((Except.error e : Except Err α) >>= f) = .error e := rfl

theorem exc_map_ok {α β : Type} (a : α) (f : α → β) :
    (Except.ok a : Except Err α).map f = .ok (f a) := rfl

theorem exc_map_error {α β : Type} (e : Err) (f : α → β) :
    (Except.error e : Except Err α).map f = .error e := rfl

theorem exc_throw_bind {α β : Type} (e : Err) (f : α → Except Err β) :
    ((throw e : Except Err α) >>= f) = .error e := rfl

theorem exc_map_throw {α β : Type} (e : Err) (f : α → β) :
    (f <$> (throw e : Except Err α)) = .error e := rfl

theorem parse_frame_option_all : parse_frame_option "all" = .ok .all := by decide

theorem countStream_eq_filter (frames : List Frame) (E : List String) :
    countStream frames E =
      (frames.flatMap Frame.symbols).filter (fun s => s ∉ E) := by
  rw [List.filter_flatMap]
  rfl

theorem ecx_all_false (frames : List Frame) (E : List String) :
    element_counts_from_xyz frames "all" false E =
      (count_frames frames E).map (fun c => (c, frames.length, frames.length)) := by
  simp only [element_counts_from_xyz, parse_frame_option_all, select_frames,
    Bool.false_eq_true, false_and, if_false]
  cases h : count_frames frames E with
  | ok c => simp [h, exc_map_ok]
  | error e => simp [h, exc_map_error]

theorem ecx_all_true (frames : List Frame) (E : List String)
    (h2 : 1 < frames.length) :
    element_counts_from_xyz frames "all" true E =
      (unique_frames_by_structure_name frames) >>= fun fr =>
        (count_frames fr E).map (fun c => (c, frames.length, fr.length)) := by
  simp only [element_counts_from_xyz, parse_frame_option_all, select_frames]
  rw [if_pos ⟨trivial, h2⟩]
  cases hu : unique_frames_by_structure_name frames with
  | ok fr =>
    simp only [hu, exc_bind_ok]
    cases h : count_frames fr E with
    | ok c => simp [h, exc_map_ok]
    | error e => simp [h, exc_map_error]
  | error e => simp [hu, exc_bind_error]

theorem count_frames_ok {frames : List Frame} {E : List String}
    {c : List (String × Nat)} (h : count_frames frames E = .ok c) :
    c = counterFold (countStream frames E) ∧ c ≠ [] := by
  simp only [count_frames] at h
  split at h
  · split at h <;> simp at h
  · rename_i hne
    cases h
    exact ⟨rfl, hne⟩

theorem count_frames_of_ne_nil {frames : List Frame} {E : List String}
    (hne : counterFold (countStream frames E) ≠ []) :
    count_frames frames E = .ok (counterFold (countStream frames E)) := by
  simp only [count_frames]
  rw [if_neg hne]

/-- C4: for counts produced by the structure-file counting path (with
exclusions applied), the table of `counts_to_dataframe` is sorted strictly
increasing in atomic number, has pairwise distinct element rows, its rows are
exactly the non-excluded observed elements, and each row carries that
element's positive occurrence count. -/
theorem claim_table_sorted_complete
    (frames : List Frame) (E : List String) (c : List (String × Nat))
    (t s : Nat)
    (hvalid : ∀ f ∈ frames, ∀ sym ∈ f.symbols, (atomic_number? sym).isSome)
    (hok : element_counts_from_xyz frames "all" false E = .ok (c, t, s)) :
    List.Pairwise (fun p q => zd p.1 < zd q.1) (counts_to_dataframe c)
    ∧ ((counts_to_dataframe c).map Prod.fst).Nodup
    ∧ (∀ e, e ∈ (counts_to_dataframe c).map Prod.fst ↔
        ((∃ f ∈ frames, e ∈ f.symbols) ∧ e ∉ E))
    ∧ (∀ p ∈ counts_to_dataframe c,
        p.2 = (frames.flatMap Frame.symbols).count p.1 ∧ 0 < p.2) := by
  rw [ecx_all_false] at hok
  have hc : count_frames frames E = .ok c := by
    cases h : count_frames frames E with
    | ok c' =>
      rw [h, exc_map_ok] at hok
      cases hok
      rfl
    | error e => rw [h, exc_map_error] at hok; cases hok
  obtain ⟨rfl, hne⟩ := count_frames_ok hc
  set xs := countStream frames E with hxs
  have hnd : ((counterFold xs).map Prod.fst).Nodup := counterFold_nodup xs
  have hmemxs : ∀ e, e ∈ xs ↔ (∃ f ∈ frames, e ∈ f.symbols) ∧ e ∉ E := by
    intro e
    rw [hxs, countStream_eq_filter, List.mem_filter]
    simp [List.mem_flatMap, and_comm]
  have hv : ∀ e ∈ (counterFold xs).map Prod.fst, (atomic_number? e).isSome := by
    intro e he
    obtain ⟨⟨f, hf, hsym⟩, -⟩ := (hmemxs e).mp ((counterFold_mem_keys xs e).mp he)
    exact hvalid f hf e hsym
  refine ⟨counts_to_dataframe_pairwise hnd hv, ?_, ?_, ?_⟩
  · rw [counts_to_dataframe_keys]
    exact (sortByZ_perm _).nodup_iff.mpr hnd
  · intro e
    rw [counts_to_dataframe_keys, (sortByZ_perm _).mem_iff,
      counterFold_mem_keys, hmemxs]
  · intro p hp
    obtain ⟨e, n⟩ := p
    obtain ⟨hm, hl⟩ := (counts_to_dataframe_mem _ e n).mp hp
    have hex : e ∈ xs := (counterFold_mem_keys xs e).mp hm
    have hnotE : e ∉ E := ((hmemxs e).mp hex).2
    have hcount : lookupCount (counterFold xs) e = xs.count e :=
      counterFold_lookup xs e
    constructor
    · rw [← hl, hcount, hxs, countStream_eq_filter]
      exact List.count_filter (by simpa using hnotE)
    · rw [← hl, hcount]
      simpa using List.count_pos_iff.mpr hex

theorem claim_table_sorted_complete_witness :
    ((∀ f ∈ [Frame.mk (some "a") ["O", "H", "H"]],
        ∀ sym ∈ f.symbols, (atomic_number? sym).isSome)
      ∧ element_counts_from_xyz [Frame.mk (some "a") ["O", "H", "H"]]
          "all" false [] = .ok ([("O", 1), ("H", 2)], 1, 1))
    ∧ (List.Pairwise (fun p q => zd p.1 < zd q.1)
        (counts_to_dataframe [("O", 1), ("H", 2)])
      ∧ ((counts_to_dataframe [("O", 1), ("H", 2)]).map Prod.fst).Nodup
      ∧ (∀ e, e ∈ (counts_to_dataframe [("O", 1), ("H", 2)]).map Prod.fst ↔
          ((∃ f ∈ [Frame.mk (some "a") ["O", "H", "H"]], e ∈ f.symbols) ∧
            e ∉ ([] : List String)))
      ∧ (∀ p ∈ counts_to_dataframe [("O", 1), ("H", 2)],
          p.2 = ([Frame.mk (some "a") ["O", "H", "H"]].flatMap
            Frame.symbols).count p.1 ∧ 0 < p.2)) :=
  ⟨⟨by decide, by decide⟩,
    claim_table_sorted_complete [Frame.mk (some "a") ["O", "H", "H"]] []
      [("O", 1), ("H", 2)] 1 1 (by decide) (by decide)⟩

/-- C6: when unique-structure mode is requested and more than one frame was
selected, counting proceeds over exactly the first frame per distinct
non-empty structure name (in order of first occurrence); if any selected
frame has a missing or empty structure name the operation fails with an error
listing the offending frame indices, at most ten of them, with an ellipsis
marker exactly when more than ten are offending. -/
theorem claim_unique_structure_dedup
    (frames : List Frame) (E : List String) (h2 : 1 < frames.length) :
    ((∀ f ∈ frames, (frameKey f).isSome) →
        element_counts_from_xyz frames "all" true E =
          (count_frames (firstPerName frames) E).map
            (fun c => (c, frames.length, (firstPerName frames).length)))
    ∧ ((∃ f ∈ frames, frameKey f = none) →
        element_counts_from_xyz frames "all" true E =
          .error (.missingStructureNames
            ((missingIndicesFrom frames 0).take 10)
            (decide (10 < (missingIndicesFrom frames 0).length))))
    ∧ (∀ j, j ∈ missingIndicesFrom frames 0 ↔
        ∃ h : j < frames.length, frameKey (frames.get ⟨j, h⟩) = none) := by
  refine ⟨?_, ?_, ?_⟩
  · intro hall
    have h0 : missingIndicesFrom frames 0 = [] :=
      (missingIndicesFrom_eq_nil_iff frames 0).mpr hall
    rw [ecx_all_true frames E h2, (unique_frames_spec frames).1 h0, exc_bind_ok]
  · intro hbad
    have h0 : missingIndicesFrom frames 0 ≠ [] := by
      intro h0
      obtain ⟨f, hf, hnone⟩ := hbad
      have := (missingIndicesFrom_eq_nil_iff frames 0).mp h0 f hf
      rw [hnone] at this
      simp at this
    rw [ecx_all_true frames E h2, (unique_frames_spec frames).2 h0,
      exc_bind_error]
  · intro j
    rw [missingIndicesFrom_mem]
    constructor
    · rintro ⟨t, h, rfl, hnone⟩
      exact ⟨by omega, by simpa using hnone⟩
    · rintro ⟨h, hnone⟩
      exact ⟨j, h, by omega, hnone⟩

theorem claim_unique_structure_dedup_witness :
    (1 < ([Frame.mk (some "a") ["H"], Frame.mk none ["O"],
        Frame.mk (some "a") ["C"]] : List Frame).length)
    ∧ (((∃ f ∈ [Frame.mk (some "a") ["H"], Frame.mk none ["O"],
          Frame.mk (some "a") ["C"]], frameKey f = none) →
        element_counts_from_xyz
          [Frame.mk (some "a") ["H"], Frame.mk none ["O"],
            Frame.mk (some "a") ["C"]] "all" true ["He"] =
          .error (.missingStructureNames
            ((missingIndicesFrom [Frame.mk (some "a") ["H"],
              Frame.mk none ["O"], Frame.mk (some "a") ["C"]] 0).take 10)
            (decide (10 < (missingIndicesFrom [Frame.mk (some "a") ["H"],
              Frame.mk none ["O"], Frame.mk (some "a") ["C"]] 0).length))))
      ∧ (∀ j, j ∈ missingIndicesFrom [Frame.mk (some "a") ["H"],
            Frame.mk none ["O"], Frame.mk (some "a") ["C"]] 0 ↔
          ∃ h : j < ([Frame.mk (some "a") ["H"], Frame.mk none ["O"],
              Frame.mk (some "a") ["C"]] : List Frame).length,
            frameKey (([Frame.mk (some "a") ["H"], Frame.mk none ["O"],
              Frame.mk (some "a") ["C"]] : List Frame).get ⟨j, h⟩) = none)) :=
  ⟨by decide,
    ((claim_unique_structure_dedup
      [Frame.mk (some "a") ["H"], Frame.mk none ["O"],
        Frame.mk (some "a") ["C"]] ["He"] (by decide)).2.1),
    ((claim_unique_structure_dedup
      [Frame.mk (some "a") ["H"], Frame.mk none ["O"],
        Frame.mk (some "a") ["C"]] ["He"] (by decide)).2.2)⟩

/-! ### Lemmas: the fraction transform on positive count maps -/

theorem lookupCount_of_mem_keys : ∀ {c : List (String × Nat)} {e : String},
    e ∈ c.map Prod.fst → (e, lookupCount c e) ∈ c := by
  intro c
  induction c with
  | nil => intro e h; simp at h
  | cons p rest ih =>
    intro e h
    obtain ⟨k, v⟩ := p
    rw [lookupCount_cons]
    by_cases hk : k = e
    · subst hk
      rw [if_pos rfl]
      exact List.mem_cons_self _ _
    · rw [if_neg hk]
      rw [List.map_cons] at h
      rcases List.mem_cons.mp h with he | hm
      · exact absurd he.symm hk
      · exact List.mem_cons_of_mem _ (ih hm)

theorem counts_to_dataframe_ne_nil {c : List (String × Nat)} (h : c ≠ []) :
    counts_to_dataframe c ≠ [] := by
  intro hdf
  apply h
  have hk : sortByZ (c.map Prod.fst) = [] := by
    rw [← counts_to_dataframe_keys, hdf]
    rfl
  have hperm := sortByZ_perm (c.map Prod.fst)
  rw [hk] at hperm
  have hmnil : c.map Prod.fst = [] := hperm.symm.eq_nil
  cases c with
  | nil => rfl
  | cons p rest => simp at hmnil

theorem counts_to_dataframe_pos {c : List (String × Nat)}
    (hpos : ∀ p ∈ c, 0 < p.2) :
    ∀ p ∈ counts_to_dataframe c, 0 < p.2 := by
  rintro ⟨e, n⟩ hp
  obtain ⟨hm, hl⟩ := (counts_to_dataframe_mem c e n).mp hp
  have := lookupCount_of_mem_keys hm
  rw [hl] at this
  exact hpos _ this

/-- On a non-empty map with positive counts, both fraction branches succeed:
the maximum is attained and positive, the fraction rows are count/max, and
in log mode every fraction passes the positivity guard. -/
theorem build_fraction_ok {c : List (String × Nat)}
    (hpos : ∀ p ∈ c, 0 < p.2) (hne : c ≠ []) :
    ∃ m : Nat, ((counts_to_dataframe c).map Prod.snd).maximum = some m
      ∧ 0 < m
      ∧ build_plot_and_csv_data c true false = .ok (.fraction
          ((counts_to_dataframe c).map (fun p => (p.1, ((p.2 : ℚ) / (m : ℚ)))))
          ((counts_to_dataframe c).map (fun p => (p.1, p.2, ((p.2 : ℚ) / (m : ℚ)))))
          "element_fraction" "Element fraction" 3)
      ∧ build_plot_and_csv_data c true true = .ok (.logFraction
          ((counts_to_dataframe c).map
            (fun p => (p.1, Real.logb 10 ((((p.2 : ℚ) / (m : ℚ)) : ℚ) : ℝ))))
          ((counts_to_dataframe c).map
            (fun p => (p.1, p.2, ((p.2 : ℚ) / (m : ℚ)),
              Real.logb 10 ((((p.2 : ℚ) / (m : ℚ)) : ℚ) : ℝ))))
          "element_fraction_log10" "log(Element fraction)" 3) := by
  have hdfne : counts_to_dataframe c ≠ [] := counts_to_dataframe_ne_nil hne
  have hdfpos := counts_to_dataframe_pos hpos
  have hvalsne : (counts_to_dataframe c).map Prod.snd ≠ [] := by
    simpa using hdfne
  have hexists : ∃ m : Nat,
      ((counts_to_dataframe c).map Prod.snd).maximum = some m := by
    cases h' : ((counts_to_dataframe c).map Prod.snd).maximum with
    | bot => exact absurd (List.maximum_eq_bot.mp h') (by simpa using hvalsne)
    | coe m => exact ⟨m, rfl⟩
  obtain ⟨m, hmax⟩ := hexists
  · have hmem : m ∈ (counts_to_dataframe c).map Prod.snd :=
      List.maximum_mem hmax
    have hmpos : 0 < m := by
      obtain ⟨p, hp, rfl⟩ := List.mem_map.mp hmem
      exact hdfpos p hp
    have hguard : ¬(m ≤ 0) := by omega
    have hfrac_pos : ∀ p ∈ counts_to_dataframe c,
        (0 : ℚ) < (p.2 : ℚ) / (m : ℚ) := by
      intro p hp
      apply div_pos
      · exact_mod_cast hdfpos p hp
      · exact_mod_cast hmpos
    refine ⟨m, hmax, hmpos, ?_, ?_⟩
    · have hstep : build_plot_and_csv_data c true false =
          (match ((counts_to_dataframe c).map Prod.snd).maximum with
           | none => Except.ok (.fraction [] [] "element_fraction"
               "Element fraction" 3)
           | some max_count =>
             if max_count ≤ 0 then .error .nonPositiveMaxCount
             else Except.ok (.fraction
               (((counts_to_dataframe c).map
                 (fun p => (p.1, p.2, ((p.2 : ℚ) / (max_count : ℚ))))).map
                   (fun r => (r.1, r.2.2)))
               ((counts_to_dataframe c).map
                 (fun p => (p.1, p.2, ((p.2 : ℚ) / (max_count : ℚ)))))
               "element_fraction" "Element fraction" 3)) := rfl
      rw [hstep, hmax]
      simp only [if_neg hguard]
      simp [List.map_map, Function.comp_def]
    · have hstep : build_plot_and_csv_data c true true =
          (match ((counts_to_dataframe c).map Prod.snd).maximum with
           | none => Except.ok (.logFraction [] [] "element_fraction_log10"
               "log(Element fraction)" 3)
           | some max_count =>
             if max_count ≤ 0 then .error .nonPositiveMaxCount
             else
               if ((counts_to_dataframe c).map
                   (fun p => (p.1, p.2, ((p.2 : ℚ) / (max_count : ℚ))))).any
                     (fun r => r.2.2 ≤ 0) then
                 .error .nonPositiveFraction
               else Except.ok (.logFraction
                 ((((counts_to_dataframe c).map
                   (fun p => (p.1, p.2, ((p.2 : ℚ) / (max_count : ℚ))))).map
                     (fun r => (r.1, r.2.1, r.2.2,
                       Real.logb 10 ((r.2.2 : ℚ) : ℝ)))).map
                       (fun r => (r.1, r.2.2.2)))
                 (((counts_to_dataframe c).map
                   (fun p => (p.1, p.2, ((p.2 : ℚ) / (max_count : ℚ))))).map
                     (fun r => (r.1, r.2.1, r.2.2,
                       Real.logb 10 ((r.2.2 : ℚ) : ℝ))))
                 "element_fraction_log10" "log(Element fraction)" 3)) := rfl
      rw [hstep, hmax]
      simp only [if_neg hguard]
      have hany : ((counts_to_dataframe c).map
          (fun p => (p.1, p.2, ((p.2 : ℚ) / (m : ℚ))))).any
            (fun r => r.2.2 ≤ 0) = false := by
        rw [List.any_eq_false]
        rintro r hr
        obtain ⟨p, hp, rfl⟩ := List.mem_map.mp hr
        simpa using not_le.mpr (hfrac_pos p hp)
      simp only [hany, Bool.false_eq_true, if_false]
      simp [List.map_map, Function.comp_def]

theorem exc_pure_eq_ok {α : Type} (a : α) :
    (pure a : Except Err α) = .ok a := rfl

/-- A successful structure-file count comes from `count_frames` on some
retained frame list. -/
theorem ecx_ok_count_frames {frames : List Frame} {fo : String} {u : Bool}
    {E : List String} {c : List (String × Nat)} {t s : Nat}
    (h : element_counts_from_xyz frames fo u E = .ok (c, t, s)) :
    ∃ fr : List Frame, count_frames fr E = .ok c := by
  simp only [element_counts_from_xyz] at h
  cases hp : parse_frame_option fo with
  | error e => simp only [hp] at h; exact absurd h (by simp)
  | ok idx =>
    simp only [hp] at h
    cases hs : select_frames frames idx with
    | error e => simp only [hs] at h; exact absurd h (by simp)
    | ok fr0 =>
      simp only [hs] at h
      by_cases hcond : u = true ∧ fr0.length > 1
      · rw [if_pos hcond] at h
        cases hu : unique_frames_by_structure_name fr0 with
        | error e => simp only [hu] at h; exact absurd h (by simp)
        | ok fr1 =>
          simp only [hu] at h
          cases hcf : count_frames fr1 E with
          | error e => simp only [hcf] at h; exact absurd h (by simp)
          | ok c' =>
            simp only [hcf] at h
            cases h
            exact ⟨fr1, hcf⟩
      · rw [if_neg hcond] at h
        simp only [] at h
        cases hcf : count_frames fr0 E with
        | error e => simp only [hcf] at h; exact absurd h (by simp)
        | ok c' =>
          simp only [hcf] at h
          cases h
          exact ⟨fr0, hcf⟩

/-- C1 (amended): every `ElementCount` that the structure-file path returns
has strictly positive counts; consequently, in fraction mode the maximum
count is positive and every fraction lies in `(0, 1]`, and the defensive
non-positive-max and non-positive-fraction branches of the transform layer
are never taken for such counts.  (The CSV path keeps zero-count rows, so the
claim fails for it — see the counterexample.) -/
theorem claim_positive_counts_invariant
    (frames : List Frame) (fo : String) (u : Bool) (E : List String)
    (c : List (String × Nat)) (t s : Nat)
    (hok : element_counts_from_xyz frames fo u E = .ok (c, t, s)) :
    (∀ p ∈ c, 0 < p.2)
    ∧ (∃ m : Nat, ((counts_to_dataframe c).map Prod.snd).maximum = some m
        ∧ 0 < m)
    ∧ (∃ plot csvd,
        build_plot_and_csv_data c true false =
          .ok (.fraction plot csvd "element_fraction" "Element fraction" 3)
        ∧ ∀ r ∈ csvd, (0 : ℚ) < r.2.2 ∧ r.2.2 ≤ 1)
    ∧ (∃ plot csvd,
        build_plot_and_csv_data c true true =
          .ok (.logFraction plot csvd "element_fraction_log10"
            "log(Element fraction)" 3)) := by
  obtain ⟨fr, hcf⟩ := ecx_ok_count_frames hok
  obtain ⟨rfl, hne⟩ := count_frames_ok hcf
  have hpos : ∀ p ∈ counterFold (countStream fr E), 0 < p.2 :=
    fun p hp => counterFold_pos hp
  obtain ⟨m, hmax, hmpos, hfrac, hlog⟩ := build_fraction_ok hpos hne
  refine ⟨hpos, ⟨m, hmax, hmpos⟩, ?_, ⟨_, _, hlog⟩⟩
  refine ⟨_, _, hfrac, ?_⟩
  rintro r hr
  obtain ⟨p, hp, rfl⟩ := List.mem_map.mp hr
  have hppos : 0 < p.2 := counts_to_dataframe_pos hpos p hp
  have hple : p.2 ≤ m :=
    List.le_maximum_of_mem (List.mem_map_of_mem Prod.snd hp) hmax
  constructor
  · exact div_pos (by exact_mod_cast hppos) (by exact_mod_cast hmpos)
  · rw [div_le_one (by exact_mod_cast hmpos : (0 : ℚ) < (m : ℚ))]
    exact_mod_cast hple

theorem claim_positive_counts_invariant_witness :
    (element_counts_from_xyz [Frame.mk (some "a") ["H", "H", "O"]]
        "all" false [] = .ok ([("H", 2), ("O", 1)], 1, 1))
    ∧ (∀ p ∈ [("H", 2), ("O", 1)], 0 < p.2)
    ∧ (∃ m : Nat, ((counts_to_dataframe [("H", 2), ("O", 1)]).map
          Prod.snd).maximum = some m ∧ 0 < m)
    ∧ (∃ plot csvd,
        build_plot_and_csv_data [("H", 2), ("O", 1)] true false =
          .ok (.fraction plot csvd "element_fraction" "Element fraction" 3)
        ∧ ∀ r ∈ csvd, (0 : ℚ) < r.2.2 ∧ r.2.2 ≤ 1)
    ∧ (∃ plot csvd,
        build_plot_and_csv_data [("H", 2), ("O", 1)] true true =
          .ok (.logFraction plot csvd "element_fraction_log10"
            "log(Element fraction)" 3)) :=
  ⟨by decide,
    (claim_positive_counts_invariant [Frame.mk (some "a") ["H", "H", "O"]]
      "all" false [] [("H", 2), ("O", 1)] 1 1 (by decide)).1,
    (claim_positive_counts_invariant [Frame.mk (some "a") ["H", "H", "O"]]
      "all" false [] [("H", 2), ("O", 1)] 1 1 (by decide)).2.1,
    (claim_positive_counts_invariant [Frame.mk (some "a") ["H", "H", "O"]]
      "all" false [] [("H", 2), ("O", 1)] 1 1 (by decide)).2.2.1,
    (claim_positive_counts_invariant [Frame.mk (some "a") ["H", "H", "O"]]
      "all" false [] [("H", 2), ("O", 1)] 1 1 (by decide)).2.2.2⟩

/-- C1 counterexample: a CSV row `H,0` passes every CSV-path validation, so
the CSV ingestion path returns an `ElementCount` containing a zero count.
On that map the fraction transform takes the "non-positive max count"
defensive branch — the branch the claim calls unreachable. -/
theorem claim_positive_counts_counterexample :
    element_counts_from_csv
        ⟨["Element", "element_count"], [[Cell.str "H", Cell.num 0]]⟩ [] =
      .ok [("H", 0)]
    ∧ ¬(0 < (("H", 0) : String × Nat).2)
    ∧ build_plot_and_csv_data [("H", 0)] true false =
        .error .nonPositiveMaxCount :=
  ⟨by decide, by decide, rfl⟩

/-- C3: on a non-empty count map with positive counts, in fraction mode every
element's value is `count / max(count)` and the element attaining the maximum
has fraction exactly 1; in log-fraction mode every value is `log10` of the
fraction, every value is `≤ 0`, and the maximum element's value is exactly 0. -/
theorem claim_fraction_log_values
    (c : List (String × Nat)) (hne : c ≠ []) (hpos : ∀ p ∈ c, 0 < p.2)
    (hnd : (c.map Prod.fst).Nodup) :
    ∃ m : Nat, (c.map Prod.snd).maximum = some m
      ∧ (∃ plot csvd,
          build_plot_and_csv_data c true false =
            .ok (.fraction plot csvd "element_fraction" "Element fraction" 3)
          ∧ plot = csvd.map (fun r => (r.1, r.2.2))
          ∧ (∀ r ∈ csvd, r.2.2 = (r.2.1 : ℚ) / (m : ℚ))
          ∧ (∃ r ∈ csvd, r.2.1 = m ∧ r.2.2 = 1))
      ∧ (∃ plot csvd,
          build_plot_and_csv_data c true true =
            .ok (.logFraction plot csvd "element_fraction_log10"
              "log(Element fraction)" 3)
          ∧ plot = csvd.map (fun r => (r.1, r.2.2.2))
          ∧ (∀ r ∈ csvd,
              r.2.2.2 = Real.logb 10 ((r.2.2.1 : ℚ) : ℝ) ∧ r.2.2.2 ≤ 0)
          ∧ (∃ r ∈ csvd, r.2.1 = m ∧ r.2.2.2 = 0)) := by
  obtain ⟨m, hmax, hmpos, hfrac, hlog⟩ := build_fraction_ok hpos hne
  have hmQ : ((m : ℚ)) ≠ 0 := by exact_mod_cast Nat.pos_iff_ne_zero.mp hmpos
  have hperm : List.Perm ((counts_to_dataframe c).map Prod.snd)
      (c.map Prod.snd) := (counts_to_dataframe_perm hnd).map Prod.snd
  have hcmax : (c.map Prod.snd).maximum = some m := by
    obtain ⟨hmem, hbound⟩ := List.maximum_eq_coe_iff.mp hmax
    exact List.maximum_eq_coe_iff.mpr
      ⟨hperm.mem_iff.mp hmem, fun b hb => hbound b (hperm.mem_iff.mpr hb)⟩
  obtain ⟨hmemdf, -⟩ := List.maximum_eq_coe_iff.mp hmax
  obtain ⟨pmax, hpmax, hpmax2⟩ := List.mem_map.mp hmemdf
  have hple : ∀ p ∈ counts_to_dataframe c, p.2 ≤ m := fun p hp =>
    List.le_maximum_of_mem (List.mem_map_of_mem Prod.snd hp) hmax
  have hdfpos := counts_to_dataframe_pos hpos
  refine ⟨m, hcmax, ?_, ?_⟩
  · refine ⟨_, _, hfrac, ?_, ?_, ?_⟩
    · simp [List.map_map, Function.comp_def]
    · rintro r hr
      obtain ⟨p, hp, rfl⟩ := List.mem_map.mp hr
      rfl
    · refine ⟨(pmax.1, pmax.2, ((pmax.2 : ℚ) / (m : ℚ))), ?_, hpmax2, ?_⟩
      · exact List.mem_map_of_mem _ hpmax
      · rw [hpmax2]
        exact div_self hmQ
  · refine ⟨_, _, hlog, ?_, ?_, ?_⟩
    · simp [List.map_map, Function.comp_def]
    · rintro r hr
      obtain ⟨p, hp, rfl⟩ := List.mem_map.mp hr
      refine ⟨rfl, ?_⟩
      apply Real.logb_nonpos (by norm_num)
      · have : (0 : ℚ) ≤ (p.2 : ℚ) / (m : ℚ) := by
          apply div_nonneg <;> positivity
        exact_mod_cast this
      · have : ((p.2 : ℚ) / (m : ℚ)) ≤ 1 := by
          rw [div_le_one (by exact_mod_cast hmpos : (0 : ℚ) < (m : ℚ))]
          exact_mod_cast hple p hp
        exact_mod_cast this
    · refine ⟨(pmax.1, pmax.2, ((pmax.2 : ℚ) / (m : ℚ)),
        Real.logb 10 ((((pmax.2 : ℚ) / (m : ℚ)) : ℚ) : ℝ)), ?_, hpmax2, ?_⟩
      · exact List.mem_map_of_mem _ hpmax
      · have h1 : ((pmax.2 : ℚ) / (m : ℚ)) = 1 := by
          rw [hpmax2]; exact div_self hmQ
        rw [h1]
        simp [Real.logb_one]

theorem claim_fraction_log_values_witness :
    (([("H", 10), ("O", 2)] : List (String × Nat)) ≠ []
      ∧ (∀ p ∈ ([("H", 10), ("O", 2)] : List (String × Nat)), 0 < p.2)
      ∧ (([("H", 10), ("O", 2)] : List (String × Nat)).map Prod.fst).Nodup)
    ∧ (∃ m : Nat,
        (([("H", 10), ("O", 2)] : List (String × Nat)).map Prod.snd).maximum =
          some m
      ∧ (∃ plot csvd,
          build_plot_and_csv_data [("H", 10), ("O", 2)] true false =
            .ok (.fraction plot csvd "element_fraction" "Element fraction" 3)
          ∧ plot = csvd.map (fun r => (r.1, r.2.2))
          ∧ (∀ r ∈ csvd, r.2.2 = (r.2.1 : ℚ) / (m : ℚ))
          ∧ (∃ r ∈ csvd, r.2.1 = m ∧ r.2.2 = 1))
      ∧ (∃ plot csvd,
          build_plot_and_csv_data [("H", 10), ("O", 2)] true true =
            .ok (.logFraction plot csvd "element_fraction_log10"
              "log(Element fraction)" 3)
          ∧ plot = csvd.map (fun r => (r.1, r.2.2.2))
          ∧ (∀ r ∈ csvd,
              r.2.2.2 = Real.logb 10 ((r.2.2.1 : ℚ) : ℝ) ∧ r.2.2.2 ≤ 0)
          ∧ (∃ r ∈ csvd, r.2.1 = m ∧ r.2.2.2 = 0))) :=
  ⟨⟨by decide, by decide, by decide⟩,
    claim_fraction_log_values [("H", 10), ("O", 2)] (by decide) (by decide)
      (by decide)⟩

/-! ### Lemmas: `mapM` over `Except`, and exclusion congruence -/

theorem exc_mapM_ok_length {α β : Type} {f : α → Except Err β} :
    ∀ {l : List α} {r : List β}, l.mapM f = .ok r → r.length = l.length := by
  intro l
  induction l with
  | nil =>
    intro r h
    rw [List.mapM_nil] at h
    cases h
    rfl
  | cons a l ih =>
    intro r h
    rw [List.mapM_cons] at h
    cases hfa : f a with
    | error e => rw [hfa, exc_bind_error] at h; exact absurd h (by simp)
    | ok b =>
      rw [hfa, exc_bind_ok] at h
      cases hml : l.mapM f with
      | error e => rw [hml, exc_bind_error] at h; exact absurd h (by simp)
      | ok bs =>
        rw [hml, exc_bind_ok] at h
        cases h
        simp [ih hml]

theorem exc_mapM_forall₂ {α β : Type} {f : α → Except Err β} :
    ∀ {l : List α} {r : List β}, l.mapM f = .ok r →
      List.Forall₂ (fun a b => f a = .ok b) l r := by
  intro l
  induction l with
  | nil =>
    intro r h
    rw [List.mapM_nil] at h
    cases h
    exact List.Forall₂.nil
  | cons a l ih =>
    intro r h
    rw [List.mapM_cons] at h
    cases hfa : f a with
    | error e => rw [hfa, exc_bind_error] at h; exact absurd h (by simp)
    | ok b =>
      rw [hfa, exc_bind_ok] at h
      cases hml : l.mapM f with
      | error e => rw [hml, exc_bind_error] at h; exact absurd h (by simp)
      | ok bs =>
        rw [hml, exc_bind_ok] at h
        cases h
        exact List.Forall₂.cons hfa (ih hml)

theorem exc_mapM_of_forall {α β : Type} {f : α → Except Err β} {g : α → β} :
    ∀ {l : List α}, (∀ a ∈ l, f a = .ok (g a)) → l.mapM f = .ok (l.map g) := by
  intro l
  induction l with
  | nil => intro _; rw [List.mapM_nil]; rfl
  | cons a l ih =>
    intro h
    rw [List.mapM_cons, h a (List.mem_cons_self a l), exc_bind_ok,
      ih (fun b hb => h b (List.mem_cons_of_mem a hb)), exc_bind_ok]
    rfl

theorem exc_mapM_error_of_mem {α β : Type} {f : α → Except Err β} :
    ∀ {l : List α}, (∃ a ∈ l, ∃ e, f a = .error e) →
      ∃ e', (∃ a ∈ l, f a = .error e') ∧ l.mapM f = .error e' := by
  intro l
  induction l with
  | nil => rintro ⟨a, ha, -⟩; simp at ha
  | cons a l ih =>
    rintro ⟨b, hb, e, hbe⟩
    rw [List.mapM_cons]
    cases hfa : f a with
    | error e' =>
      exact ⟨e', ⟨a, List.mem_cons_self a l, hfa⟩, by rw [exc_bind_error]⟩
    | ok v =>
      rcases List.mem_cons.mp hb with rfl | hbl
      · rw [hfa] at hbe; cases hbe
      · obtain ⟨e', ⟨a', ha', hae'⟩, he'⟩ := ih ⟨b, hbl, e, hbe⟩
        exact ⟨e', ⟨a', List.mem_cons_of_mem a ha', hae'⟩,
          by rw [exc_bind_ok, he', exc_bind_error]⟩

/-- The symbols a successful normalization pass returns are all valid. -/
theorem exc_mapM_normalize_valid {g : Cell × Cell → String} :
    ∀ {l : List (Cell × Cell)} {syms : List String},
      l.mapM (fun p => normalize_element_symbol (g p)) = .ok syms →
      ∀ s ∈ syms, (atomic_number? s).isSome := by
  intro l
  induction l with
  | nil =>
    intro syms h s hs
    rw [List.mapM_nil] at h
    cases h
    simp at hs
  | cons a l ih =>
    intro syms h s hs
    rw [List.mapM_cons] at h
    cases hfa : normalize_element_symbol (g a) with
    | error e => rw [hfa, exc_bind_error] at h; exact absurd h (by simp)
    | ok b =>
      rw [hfa, exc_bind_ok] at h
      cases hml : l.mapM (fun p => normalize_element_symbol (g p)) with
      | error e => rw [hml, exc_bind_error] at h; exact absurd h (by simp)
      | ok bs =>
        rw [hml, exc_bind_ok] at h
        cases h
        rcases List.mem_cons.mp hs with rfl | hs'
        · exact normalize_valid hfa
        · exact ih hml s hs'

/-- The only errors `normalize_element_symbol` raises. -/
theorem normalize_error_shape {s : String} {e : Err}
    (h : normalize_element_symbol s = .error e) :
    e = .emptySymbol ∨ ∃ s', e = .invalidElement s' := by
  by_cases h1 : pyStrip s = ""
  · simp [normalize_element_symbol, h1] at h
    exact Or.inl h.symm
  · by_cases h2 : (atomic_number? (pyCapitalize (pyStrip s))).isSome
    · simp [normalize_element_symbol, h1, h2] at h
    · simp [normalize_element_symbol, h1, h2] at h
      exact Or.inr ⟨s, h.symm⟩

theorem select_frames_mem {file_frames : List Frame} {idx : FrameIndex}
    {fr : List Frame} (h : select_frames file_frames idx = .ok fr) :
    ∀ g ∈ fr, g ∈ file_frames := by
  cases idx with
  | all =>
    cases h
    exact fun g hg => hg
  | idx i =>
    simp only [select_frames] at h
    by_cases hc : 0 ≤ (if i < 0 then (file_frames.length : Int) + i else i)
        ∧ (if i < 0 then (file_frames.length : Int) + i else i) <
          (file_frames.length : Int)
    · rw [dif_pos hc] at h
      cases h
      intro g hg
      rcases List.mem_singleton.mp hg with rfl
      exact List.get_mem _ _ _
    · rw [dif_neg hc] at h
      exact absurd h (by simp)

theorem firstPerName_subset : ∀ (l : List Frame), ∀ g ∈ firstPerName l, g ∈ l := by
  have key : ∀ (n : Nat) (l : List Frame), l.length ≤ n →
      ∀ g ∈ firstPerName l, g ∈ l := by
    intro n
    induction n with
    | zero =>
      intro l hl g hg
      have : l = [] := List.length_eq_zero.mp (Nat.le_zero.mp hl)
      subst this
      simp [firstPerName_nil] at hg
    | succ n ih =>
      intro l hl g hg
      cases l with
      | nil => simp [firstPerName_nil] at hg
      | cons f rest =>
        cases hk : frameKey f with
        | none =>
          rw [firstPerName_cons_none hk] at hg
          exact List.mem_cons_of_mem _
            (ih rest (by simpa [Nat.succ_le_succ_iff] using hl) g hg)
        | some k =>
          rw [firstPerName_cons_some hk] at hg
          rcases List.mem_cons.mp hg with rfl | hg'
          · exact List.mem_cons_self _ _
          · have hlen : (rest.filter (fun g => frameKey g ≠ some k)).length ≤ n :=
              le_trans (List.length_filter_le _ _)
                (by simpa [Nat.succ_le_succ_iff] using hl)
            exact List.mem_cons_of_mem _
              (List.mem_of_mem_filter (ih _ hlen g hg'))
  exact fun l => key l.length l le_rfl

theorem unique_frames_ok_eq {frames fr : List Frame}
    (h : unique_frames_by_structure_name frames = .ok fr) :
    fr = firstPerName frames := by
  by_cases h0 : missingIndicesFrom frames 0 = []
  · rw [(unique_frames_spec frames).1 h0] at h
    cases h
    rfl
  · rw [(unique_frames_spec frames).2 h0] at h
    exact absurd h (by simp)

theorem countStream_absent {fr : List Frame} {x : String} {E : List String}
    (hx : ∀ f ∈ fr, x ∉ f.symbols) :
    countStream fr (E ++ [x]) = countStream fr E := by
  induction fr with
  | nil => rfl
  | cons f rest ih =>
    simp only [countStream, List.flatMap_cons]
    have hrest : countStream rest (E ++ [x]) = countStream rest E :=
      ih (fun g hg => hx g (List.mem_cons_of_mem f hg))
    simp only [countStream] at hrest
    rw [hrest]
    congr 1
    apply List.filter_congr
    intro s hs
    have hsx : s ≠ x := fun hsx =>
      hx f (List.mem_cons_self f rest) (hsx ▸ hs)
    simp [List.mem_append, hsx]

theorem count_frames_absent {fr : List Frame} {x : String} {E : List String}
    {c : List (String × Nat)} (hx : ∀ f ∈ fr, x ∉ f.symbols)
    (h : count_frames fr E = .ok c) :
    count_frames fr (E ++ [x]) = .ok c := by
  obtain ⟨rfl, hne⟩ := count_frames_ok h
  rw [count_frames, countStream_absent hx, if_neg hne]

theorem isEmpty_false_iff {α : Type} (l : List α) : l.isEmpty = false ↔ l ≠ [] := by
  cases l <;> simp

theorem bool_ne_true {b : Bool} (h : b = false) : ¬(b = true) := by simp [h]

/-- A successful CSV ingestion decomposed into its stage facts. -/
theorem eccsv_ok_decompose {t : RawCsv} {E : List String}
    {r : List (String × Nat)} (h : element_counts_from_csv t E = .ok r) :
    ∃ pairs syms qs,
      t.rows.isEmpty = false
      ∧ select_columns t = .ok pairs
      ∧ (pairs.filter (fun p => ¬p.1.isNa ∧ ¬p.2.isNa)).isEmpty = false
      ∧ (pairs.filter (fun p => ¬p.1.isNa ∧ ¬p.2.isNa)).mapM
          (fun p => normalize_element_symbol (cellToStr p.1)) = .ok syms
      ∧ (pairs.filter (fun p => ¬p.1.isNa ∧ ¬p.2.isNa)).mapM
          (fun p => toNumeric p.2) = .ok qs
      ∧ qs.any (fun q => q < 0) = false
      ∧ qs.any (fun q => ¬q.isInt) = false
      ∧ (if E ≠ [] then
          (syms.zip (qs.map (fun q => q.num.toNat))).filter
            (fun p => p.1 ∉ E)
         else syms.zip (qs.map (fun q => q.num.toNat))).isEmpty = false
      ∧ r = group_and_sort (if E ≠ [] then
          (syms.zip (qs.map (fun q => q.num.toNat))).filter
            (fun p => p.1 ∉ E)
         else syms.zip (qs.map (fun q => q.num.toNat))) := by
  rw [element_counts_from_csv] at h
  by_cases h0 : t.rows.isEmpty
  · rw [if_pos h0] at h
    exact absurd h (by simp)
  · rw [if_neg h0] at h
    cases hsel : select_columns t with
    | error e => simp only [hsel] at h; exact absurd h (by simp)
    | ok pairs =>
      simp only [hsel] at h
      rw [csv_count_stage] at h
      by_cases h1 : (pairs.filter (fun p => ¬p.1.isNa ∧ ¬p.2.isNa)).isEmpty
      · rw [if_pos h1] at h
        exact absurd h (by simp)
      · rw [if_neg h1] at h
        cases hsyms : (pairs.filter (fun p => ¬p.1.isNa ∧ ¬p.2.isNa)).mapM
            (fun p => normalize_element_symbol (cellToStr p.1)) with
        | error e => simp only [hsyms] at h; exact absurd h (by simp)
        | ok syms =>
          simp only [hsyms] at h
          cases hqs : (pairs.filter (fun p => ¬p.1.isNa ∧ ¬p.2.isNa)).mapM
              (fun p => toNumeric p.2) with
          | error e => simp only [hqs] at h; exact absurd h (by simp)
          | ok qs =>
            simp only [hqs] at h
            by_cases h2 : qs.any (fun q => q < 0)
            · rw [if_pos h2] at h
              exact absurd h (by simp)
            · rw [if_neg h2] at h
              by_cases h3 : qs.any (fun q => ¬q.isInt)
              · rw [if_pos h3] at h
                exact absurd h (by simp)
              · rw [if_neg h3] at h
                by_cases h4 : (if E ≠ [] then
                    (syms.zip (qs.map (fun q => q.num.toNat))).filter
                      (fun p => p.1 ∉ E)
                   else syms.zip (qs.map (fun q => q.num.toNat))).isEmpty
                · rw [if_pos h4] at h
                  by_cases hE : E ≠ []
                  · rw [if_pos hE] at h
                    exact absurd h (by simp)
                  · rw [if_neg hE] at h
                    exact absurd h (by simp)
                · rw [if_neg h4] at h
                  cases h
                  exact ⟨pairs, syms, qs, by simpa using h0, rfl,
                    by simpa using h1, hsyms, hqs, by simpa using h2,
                    by simpa using h3, by simpa using h4, rfl⟩

/-- Rebuilding a CSV ingestion run from its stage facts. -/
theorem eccsv_of_stages {t : RawCsv} {E : List String}
    {pairs : List (Cell × Cell)} {syms : List String} {qs : List ℚ}
    (h0 : t.rows.isEmpty = false)
    (hsel : select_columns t = .ok pairs)
    (h1 : (pairs.filter (fun p => ¬p.1.isNa ∧ ¬p.2.isNa)).isEmpty = false)
    (hsyms : (pairs.filter (fun p => ¬p.1.isNa ∧ ¬p.2.isNa)).mapM
      (fun p => normalize_element_symbol (cellToStr p.1)) = .ok syms)
    (hqs : (pairs.filter (fun p => ¬p.1.isNa ∧ ¬p.2.isNa)).mapM
      (fun p => toNumeric p.2) = .ok qs)
    (h2 : qs.any (fun q => q < 0) = false)
    (h3 : qs.any (fun q => ¬q.isInt) = false)
    (h4 : (if E ≠ [] then
        (syms.zip (qs.map (fun q => q.num.toNat))).filter (fun p => p.1 ∉ E)
       else syms.zip (qs.map (fun q => q.num.toNat))).isEmpty = false) :
    element_counts_from_csv t E = .ok (group_and_sort (if E ≠ [] then
        (syms.zip (qs.map (fun q => q.num.toNat))).filter (fun p => p.1 ∉ E)
       else syms.zip (qs.map (fun q => q.num.toNat)))) := by
  rw [element_counts_from_csv, if_neg (bool_ne_true h0)]
  simp only [hsel]
  rw [csv_count_stage, if_neg (bool_ne_true h1)]
  simp only [hsyms, hqs]
  rw [if_neg (bool_ne_true h2), if_neg (bool_ne_true h3),
    if_neg (bool_ne_true h4)]

/-- Excluding an element that occurs in no frame of the input leaves a
successful structure-file count unchanged. -/
theorem ecx_exclude_absent {frames : List Frame} {fo : String} {u : Bool}
    {E : List String} {x : String} {r : List (String × Nat) × Nat × Nat}
    (hx : ∀ f ∈ frames, x ∉ f.symbols)
    (hok : element_counts_from_xyz frames fo u E = .ok r) :
    element_counts_from_xyz frames fo u (E ++ [x]) = .ok r := by
  simp only [element_counts_from_xyz] at hok ⊢
  cases hp : parse_frame_option fo with
  | error e => simp only [hp] at hok; exact absurd hok (by simp)
  | ok idx =>
    simp only [hp] at hok ⊢
    cases hs : select_frames frames idx with
    | error e => simp only [hs] at hok; exact absurd hok (by simp)
    | ok fr0 =>
      simp only [hs] at hok ⊢
      have hx0 : ∀ f ∈ fr0, x ∉ f.symbols := fun f hf =>
        hx f (select_frames_mem hs f hf)
      by_cases hcond : u = true ∧ fr0.length > 1
      · rw [if_pos hcond] at hok ⊢
        cases hu : unique_frames_by_structure_name fr0 with
        | error e => simp only [hu] at hok; exact absurd hok (by simp)
        | ok fr1 =>
          simp only [hu] at hok ⊢
          have hx1 : ∀ f ∈ fr1, x ∉ f.symbols := by
            intro f hf
            apply hx0
            rw [unique_frames_ok_eq hu] at hf
            exact firstPerName_subset fr0 f hf
          cases hcf : count_frames fr1 E with
          | error e => simp only [hcf] at hok; exact absurd hok (by simp)
          | ok c =>
            simp only [hcf] at hok
            simp only [count_frames_absent hx1 hcf]
            exact hok
      · rw [if_neg hcond] at hok ⊢
        simp only [] at hok ⊢
        cases hcf : count_frames fr0 E with
        | error e => simp only [hcf] at hok; exact absurd hok (by simp)
        | ok c =>
          simp only [hcf] at hok
          simp only [count_frames_absent hx0 hcf]
          exact hok

/-- Excluding every element that occurs yields the after-exclusion empty-data
error on the structure-file path. -/
theorem ecx_exclude_all {frames : List Frame} {E : List String}
    (hatoms : ∃ f ∈ frames, f.symbols ≠ [])
    (hall : ∀ f ∈ frames, ∀ s ∈ f.symbols, s ∈ E) :
    element_counts_from_xyz frames "all" false E =
      .error (.noAtomsAfterExclusion (sortByZ E)) := by
  have hstream : countStream frames E = [] := by
    rw [countStream_eq_filter, List.filter_eq_nil_iff]
    intro s hs
    obtain ⟨f, hf, hsf⟩ := List.mem_flatMap.mp hs
    simpa using hall f hf s hsf
  have hE : E ≠ [] := by
    obtain ⟨f, hf, hsne⟩ := hatoms
    obtain ⟨s, hs⟩ := List.exists_mem_of_ne_nil _ hsne
    intro hEnil
    subst hEnil
    simpa using hall f hf s hs
  rw [ecx_all_false, count_frames, hstream]
  simp only [counterFold, List.foldl_nil, if_pos rfl, if_pos hE]
  rfl

/-- Excluding an element that occurs in no row of the CSV data leaves a
successful CSV count unchanged. -/
theorem eccsv_exclude_absent {t : RawCsv} {E : List String} {x : String}
    {r r₀ : List (String × Nat)}
    (hbase : element_counts_from_csv t [] = .ok r₀)
    (hx : x ∉ r₀.map Prod.fst)
    (hok : element_counts_from_csv t E = .ok r) :
    element_counts_from_csv t (E ++ [x]) = .ok r := by
  obtain ⟨pairs, syms, qs, h0, hsel, h1, hsyms, hqs, h2, h3, h4, hr⟩ :=
    eccsv_ok_decompose hok
  obtain ⟨pairs₀, syms₀, qs₀, -, hsel', -, hsyms', hqs', -, -, h4', hr₀⟩ :=
    eccsv_ok_decompose hbase
  rw [hsel] at hsel'
  cases hsel'
  rw [hsyms] at hsyms'
  cases hsyms'
  rw [hqs] at hqs'
  cases hqs'
  have hr₀' : r₀ = group_and_sort
      (syms.zip (qs.map (fun q => q.num.toNat))) := by simpa using hr₀
  have hlen : syms.length ≤ (qs.map (fun q => q.num.toNat)).length := by
    rw [exc_mapM_ok_length hsyms, List.length_map, exc_mapM_ok_length hqs]
  have hmapfst : (syms.zip (qs.map (fun q => q.num.toNat))).map Prod.fst =
      syms := List.map_fst_zip _ _ hlen
  have hxsyms : x ∉ syms := by
    intro hxs
    apply hx
    rw [hr₀', group_and_sort_keys]
    refine (sortByZ_perm _).mem_iff.mpr (List.mem_dedup.mpr ?_)
    rw [hmapfst]
    exact hxs
  have hne_x : ∀ p ∈ syms.zip (qs.map (fun q => q.num.toNat)), p.1 ≠ x := by
    intro p hp hpx
    apply hxsyms
    rw [← hpx, ← hmapfst]
    exact List.mem_map_of_mem Prod.fst hp
  have hfilter_eq : (syms.zip (qs.map (fun q => q.num.toNat))).filter
        (fun p => p.1 ∉ (E ++ [x])) =
      (if E ≠ [] then
        (syms.zip (qs.map (fun q => q.num.toNat))).filter (fun p => p.1 ∉ E)
       else syms.zip (qs.map (fun q => q.num.toNat))) := by
    by_cases hE : E ≠ []
    · rw [if_pos hE]
      apply List.filter_congr
      intro p hp
      have := hne_x p hp
      simp [List.mem_append, this]
    · rw [if_neg hE]
      rw [not_not] at hE
      subst hE
      rw [List.filter_eq_self]
      intro p hp
      have := hne_x p hp
      simp [this]
  have hx4 : (if (E ++ [x]) ≠ [] then
      (syms.zip (qs.map (fun q => q.num.toNat))).filter
        (fun p => p.1 ∉ (E ++ [x]))
     else syms.zip (qs.map (fun q => q.num.toNat))).isEmpty = false := by
    rw [if_pos (by simp), hfilter_eq]
    exact h4
  have happly := eccsv_of_stages (E := E ++ [x]) h0 hsel h1 hsyms hqs h2 h3 hx4
  rw [if_pos (by simp : (E ++ [x]) ≠ []), hfilter_eq] at happly
  rw [happly, hr]

/-- Excluding every element that occurs yields the after-exclusion empty-data
error on the CSV path. -/
theorem eccsv_exclude_all {t : RawCsv} {E : List String}
    {r₀ : List (String × Nat)}
    (hbase : element_counts_from_csv t [] = .ok r₀)
    (hall : ∀ k ∈ r₀.map Prod.fst, k ∈ E) :
    element_counts_from_csv t E =
      .error (.csvNoCountsAfterExclusion (sortByZ E)) := by
  obtain ⟨pairs, syms, qs, h0, hsel, h1, hsyms, hqs, h2, h3, h4, hr₀⟩ :=
    eccsv_ok_decompose hbase
  have hr₀' : r₀ = group_and_sort
      (syms.zip (qs.map (fun q => q.num.toNat))) := by simpa using hr₀
  have h4' : (syms.zip (qs.map (fun q => q.num.toNat))).isEmpty = false := by
    simpa using h4
  have hkeys : ∀ p ∈ syms.zip (qs.map (fun q => q.num.toNat)), p.1 ∈ E := by
    intro p hp
    apply hall
    rw [hr₀', group_and_sort_keys]
    exact (sortByZ_perm _).mem_iff.mpr
      (List.mem_dedup.mpr (List.mem_map_of_mem Prod.fst hp))
  have hE : E ≠ [] := by
    have hne : syms.zip (qs.map (fun q => q.num.toNat)) ≠ [] :=
      (isEmpty_false_iff _).mp h4'
    obtain ⟨p, hp⟩ := List.exists_mem_of_ne_nil _ hne
    intro hEnil
    subst hEnil
    simpa using hkeys p hp
  have hfilter : (syms.zip (qs.map (fun q => q.num.toNat))).filter
      (fun p => p.1 ∉ E) = [] :=
    List.filter_eq_nil_iff.mpr (fun p hp => by simpa using hkeys p hp)
  rw [element_counts_from_csv, if_neg (bool_ne_true h0)]
  simp only [hsel]
  rw [csv_count_stage, if_neg (bool_ne_true h1)]
  simp only [hsyms, hqs]
  rw [if_neg (bool_ne_true h2), if_neg (bool_ne_true h3)]
  rw [if_pos hE, hfilter]
  rw [if_pos (show ([] : List (String × Nat)).isEmpty = true from rfl),
    if_pos hE]
  rfl

/-- C8: adding to the exclusion set an element that does not occur in the
data leaves a successful count unchanged on both ingestion paths; and
excluding every element that does occur makes counting fail with the
after-exclusion variant of the empty-data error, on both paths, rather than
return an empty map. -/
theorem claim_exclusion_idempotent :
    (∀ (frames : List Frame) (fo : String) (u : Bool) (E : List String)
        (x : String) (r : List (String × Nat) × Nat × Nat),
      (∀ f ∈ frames, x ∉ f.symbols) →
      element_counts_from_xyz frames fo u E = .ok r →
      element_counts_from_xyz frames fo u (E ++ [x]) = .ok r)
    ∧ (∀ (t : RawCsv) (E : List String) (x : String)
        (r r₀ : List (String × Nat)),
      element_counts_from_csv t [] = .ok r₀ →
      x ∉ r₀.map Prod.fst →
      element_counts_from_csv t E = .ok r →
      element_counts_from_csv t (E ++ [x]) = .ok r)
    ∧ (∀ (frames : List Frame) (E : List String),
      (∃ f ∈ frames, f.symbols ≠ []) →
      (∀ f ∈ frames, ∀ s ∈ f.symbols, s ∈ E) →
      element_counts_from_xyz frames "all" false E =
        .error (.noAtomsAfterExclusion (sortByZ E)))
    ∧ (∀ (t : RawCsv) (E : List String) (r₀ : List (String × Nat)),
      element_counts_from_csv t [] = .ok r₀ →
      (∀ k ∈ r₀.map Prod.fst, k ∈ E) →
      element_counts_from_csv t E =
        .error (.csvNoCountsAfterExclusion (sortByZ E))) :=
  ⟨fun _ _ _ _ _ _ hx hok => ecx_exclude_absent hx hok,
   fun _ _ _ _ _ hbase hx hok => eccsv_exclude_absent hbase hx hok,
   fun _ _ hatoms hall => ecx_exclude_all hatoms hall,
   fun _ _ _ hbase hall => eccsv_exclude_all hbase hall⟩

theorem claim_exclusion_idempotent_witness :
    (element_counts_from_xyz [Frame.mk (some "a") ["H", "O"]] "all" false
        ([] ++ ["C"]) = .ok ([("H", 1), ("O", 1)], 1, 1))
    ∧ (element_counts_from_csv (export_then_read_csv [("H", 2)])
        ([] ++ ["C"]) = .ok [("H", 2)])
    ∧ (element_counts_from_xyz [Frame.mk (some "a") ["H"]] "all" false ["H"] =
        .error (.noAtomsAfterExclusion (sortByZ ["H"])))
    ∧ (element_counts_from_csv (export_then_read_csv [("H", 2)]) ["H"] =
        .error (.csvNoCountsAfterExclusion (sortByZ ["H"]))) :=
  ⟨claim_exclusion_idempotent.1 [Frame.mk (some "a") ["H", "O"]] "all" false
      [] "C" ([("H", 1), ("O", 1)], 1, 1) (by decide) (by decide),
   claim_exclusion_idempotent.2.1 (export_then_read_csv [("H", 2)]) [] "C"
      [("H", 2)] [("H", 2)] (by decide) (by decide) (by decide),
   claim_exclusion_idempotent.2.2.1 [Frame.mk (some "a") ["H"]] ["H"]
      ⟨Frame.mk (some "a") ["H"], by decide, by decide⟩ (by decide),
   claim_exclusion_idempotent.2.2.2 (export_then_read_csv [("H", 2)]) ["H"]
      [("H", 2)] (by decide) (by decide)⟩

/-- C5: every mutual-exclusion/validation rule of the driver fires before the
input data is consulted: under each violating flag combination the run
returns a fixed argument error that is the same for every possible content of
the structure file and of the CSV file (so the input is never read), and when
the earlier rules are satisfied the error is the rule's own. -/
theorem claim_validation_before_io (a : Args) (E : List String) :
    ((a.log_fraction ∧ ¬a.fraction) →
      ∀ (frames : List Frame) (csv : RawCsv),
        main_validate_and_count a E frames csv =
          .error .logFractionRequiresFraction)
    ∧ ((a.log_fraction ∧ a.log_scale) →
      ∃ e, e.isArgumentError = true ∧
        ∀ (frames : List Frame) (csv : RawCsv),
          main_validate_and_count a E frames csv = .error e)
    ∧ ((a.log_fraction ∧ a.log_scale ∧ a.fraction) →
      ∀ (frames : List Frame) (csv : RawCsv),
        main_validate_and_count a E frames csv =
          .error .logFractionWithLogScale)
    ∧ (colorRangeInvalid a.color_min a.color_max = true →
      ∃ e, e.isArgumentError = true ∧
        ∀ (frames : List Frame) (csv : RawCsv),
          main_validate_and_count a E frames csv = .error e)
    ∧ ((colorRangeInvalid a.color_min a.color_max = true ∧ ¬a.log_fraction) →
      ∀ (frames : List Frame) (csv : RawCsv),
        main_validate_and_count a E frames csv =
          .error .colorMinNotLessThanMax)
    ∧ ((a.input_is_csv ∧ (a.unique_structure ∨ a.frame ≠ "all")) →
      ∃ e, e.isArgumentError = true ∧
        ∀ (frames : List Frame) (csv : RawCsv),
          main_validate_and_count a E frames csv = .error e)
    ∧ ((a.input_is_csv ∧ a.unique_structure ∧ ¬a.log_fraction ∧
        colorRangeInvalid a.color_min a.color_max = false) →
      ∀ (frames : List Frame) (csv : RawCsv),
        main_validate_and_count a E frames csv =
          .error .uniqueStructureWithCsv)
    ∧ ((a.input_is_csv ∧ a.frame ≠ "all" ∧ ¬a.unique_structure ∧
        ¬a.log_fraction ∧
        colorRangeInvalid a.color_min a.color_max = false) →
      ∀ (frames : List Frame) (csv : RawCsv),
        main_validate_and_count a E frames csv = .error .frameWithCsv) := by
  refine ⟨?_, ?_, ?_, ?_, ?_, ?_, ?_, ?_⟩
  · rintro h frames csv
    rw [main_validate_and_count, if_pos h]
  · rintro ⟨h1, h2⟩
    by_cases hf : a.fraction
    · refine ⟨.logFractionWithLogScale, by decide, fun frames csv => ?_⟩
      rw [main_validate_and_count, if_neg (fun hc => hc.2 hf),
        if_pos ⟨h1, h2⟩]
    · refine ⟨.logFractionRequiresFraction, by decide, fun frames csv => ?_⟩
      rw [main_validate_and_count, if_pos ⟨h1, hf⟩]
  · rintro ⟨h1, h2, h3⟩ frames csv
    rw [main_validate_and_count, if_neg (fun hc => hc.2 h3), if_pos ⟨h1, h2⟩]
  · intro h
    by_cases hl1 : a.log_fraction ∧ ¬a.fraction
    · exact ⟨.logFractionRequiresFraction, by decide, fun frames csv => by
        rw [main_validate_and_count, if_pos hl1]⟩
    · by_cases hl2 : a.log_fraction ∧ a.log_scale
      · exact ⟨.logFractionWithLogScale, by decide, fun frames csv => by
          rw [main_validate_and_count, if_neg hl1, if_pos hl2]⟩
      · exact ⟨.colorMinNotLessThanMax, by decide, fun frames csv => by
          rw [main_validate_and_count, if_neg hl1, if_neg hl2, if_pos h]⟩
  · rintro ⟨h, hnl⟩ frames csv
    rw [main_validate_and_count, if_neg (fun hc => hnl hc.1),
      if_neg (fun hc => hnl hc.1), if_pos h]
  · rintro ⟨hcsv, hor⟩
    by_cases hl1 : a.log_fraction ∧ ¬a.fraction
    · exact ⟨.logFractionRequiresFraction, by decide, fun frames csv => by
        rw [main_validate_and_count, if_pos hl1]⟩
    · by_cases hl2 : a.log_fraction ∧ a.log_scale
      · exact ⟨.logFractionWithLogScale, by decide, fun frames csv => by
          rw [main_validate_and_count, if_neg hl1, if_pos hl2]⟩
      · by_cases hl3 : colorRangeInvalid a.color_min a.color_max = true
        · exact ⟨.colorMinNotLessThanMax, by decide, fun frames csv => by
            rw [main_validate_and_count, if_neg hl1, if_neg hl2, if_pos hl3]⟩
        · by_cases hu : a.unique_structure
          · exact ⟨.uniqueStructureWithCsv, by decide, fun frames csv => by
              rw [main_validate_and_count, if_neg hl1, if_neg hl2,
                if_neg hl3, if_pos hcsv, if_pos hu]⟩
          · have hfr : a.frame ≠ "all" := by
              rcases hor with h | h
              · exact absurd h hu
              · exact h
            exact ⟨.frameWithCsv, by decide, fun frames csv => by
              rw [main_validate_and_count, if_neg hl1, if_neg hl2,
                if_neg hl3, if_pos hcsv, if_neg hu, if_pos hfr]⟩
  · rintro ⟨hcsv, hu, hnl, hcr⟩ frames csv
    rw [main_validate_and_count, if_neg (fun hc => hnl hc.1),
      if_neg (fun hc => hnl hc.1), if_neg (bool_ne_true hcr),
      if_pos hcsv, if_pos hu]
  · rintro ⟨hcsv, hfr, hnu, hnl, hcr⟩ frames csv
    rw [main_validate_and_count, if_neg (fun hc => hnl hc.1),
      if_neg (fun hc => hnl hc.1), if_neg (bool_ne_true hcr),
      if_pos hcsv, if_neg hnu, if_pos hfr]

theorem claim_validation_before_io_witness :
    ((Args.mk "all" false false false true none none true).log_fraction
      ∧ ¬(Args.mk "all" false false false true none none true).fraction)
    ∧ (∀ (frames : List Frame) (csv : RawCsv),
        main_validate_and_count
          (Args.mk "all" false false false true none none true) [] frames csv =
        .error .logFractionRequiresFraction)
    ∧ (colorRangeInvalid (some 3) (some 2) = true
      ∧ ¬(Args.mk "all" false false false false (some 3) (some 2)
          false).log_fraction)
    ∧ (∀ (frames : List Frame) (csv : RawCsv),
        main_validate_and_count
          (Args.mk "all" false false false false (some 3) (some 2) false) []
          frames csv = .error .colorMinNotLessThanMax) :=
  ⟨⟨by decide, by decide⟩,
    (claim_validation_before_io
      (Args.mk "all" false false false true none none true) []).1
      ⟨by decide, by decide⟩,
    ⟨by decide, by decide⟩,
    (claim_validation_before_io
      (Args.mk "all" false false false false (some 3) (some 2) false)
      []).2.2.2.2.1 ⟨by decide, by decide⟩⟩

/-- C10: for CSV input the `--frame` option is rejected unless its raw value
is exactly the lowercase string `"all"`; case variants such as `"ALL"` are
accepted by the frame parser itself (and behave like `"all"` on the
structure-file path) but cause an argument error on the CSV path. -/
theorem claim_csv_frame_literal_all :
    parse_frame_option "ALL" = .ok .all
    ∧ (∀ (frames : List Frame) (u : Bool) (E : List String),
        element_counts_from_xyz frames "ALL" u E =
          element_counts_from_xyz frames "all" u E)
    ∧ (∀ (a : Args) (E : List String) (frames : List Frame) (csv : RawCsv),
        a.input_is_csv → a.frame ≠ "all" → ¬a.unique_structure →
        ¬a.log_fraction →
        colorRangeInvalid a.color_min a.color_max = false →
        main_validate_and_count a E frames csv = .error .frameWithCsv) := by
  have hALL : parse_frame_option "ALL" = .ok .all := by decide
  refine ⟨hALL, ?_, ?_⟩
  · intro frames u E
    simp only [element_counts_from_xyz, hALL, parse_frame_option_all]
  · intro a E frames csv hcsv hfr hnu hnl hcr
    rw [main_validate_and_count, if_neg (fun hc => hnl hc.1),
      if_neg (fun hc => hnl hc.1), if_neg (bool_ne_true hcr),
      if_pos hcsv, if_neg hnu, if_pos hfr]

theorem claim_csv_frame_literal_all_witness :
    ((Args.mk "ALL" false false false false none none true).input_is_csv
      ∧ (Args.mk "ALL" false false false false none none true).frame ≠ "all"
      ∧ ¬(Args.mk "ALL" false false false false none none true).unique_structure
      ∧ ¬(Args.mk "ALL" false false false false none none true).log_fraction
      ∧ colorRangeInvalid none none = false)
    ∧ main_validate_and_count
        (Args.mk "ALL" false false false false none none true) [] []
        (export_then_read_csv [("H", 1)]) = .error .frameWithCsv
    ∧ element_counts_from_xyz [Frame.mk (some "a") ["H"]] "ALL" false [] =
        element_counts_from_xyz [Frame.mk (some "a") ["H"]] "all" false [] :=
  ⟨⟨by decide, by decide, by decide, by decide, by decide⟩,
    claim_csv_frame_literal_all.2.2
      (Args.mk "ALL" false false false false none none true) [] []
      (export_then_read_csv [("H", 1)]) (by decide) (by decide) (by decide)
      (by decide) (by decide),
    claim_csv_frame_literal_all.2.1 [Frame.mk (some "a") ["H"]] false []⟩

/-- C9: for every cell whose fill colour parses, the adaptive pass picks
white text exactly when the fill's perceptual luminance (sRGB-to-linear,
weighted 0.2126/0.7152/0.0722) is below 0.45 and black otherwise; with the
force-all-black flag set, every cell of a matching data source gets black
text and the fill colours are not consulted. -/
theorem claim_adaptive_text_color :
    (∀ (hex : String) (r g b : Nat),
      parse_fill_rgb hex = some (r, g, b) →
      (text_color_for_fill hex = "#FFFFFF" ↔ luminance r g b < 0.45)
      ∧ (text_color_for_fill hex = "#000000" ↔ ¬(luminance r g b < 0.45)))
    ∧ (∀ src : CellDataSource,
      assigned_text_colors src true = List.replicate src.sym.length "#000000")
    ∧ (∀ src : CellDataSource,
      assigned_text_colors src false =
        src.type_color.map text_color_for_fill) := by
  refine ⟨?_, fun src => rfl, fun src => rfl⟩
  intro hex r g b hp
  simp only [text_color_for_fill, hp]
  by_cases hl : luminance r g b < 0.45
  · constructor
    · rw [if_pos hl]
      exact ⟨fun _ => hl, fun _ => rfl⟩
    · rw [if_pos hl]
      constructor
      · intro h
        exact absurd h (by decide)
      · intro h
        exact absurd hl h
  · constructor
    · rw [if_neg hl]
      constructor
      · intro h
        exact absurd h.symm (by decide)
      · intro h
        exact absurd h hl
    · rw [if_neg hl]
      exact ⟨fun _ => hl, fun _ => rfl⟩

theorem claim_adaptive_text_color_witness :
    parse_fill_rgb "#000000" = some (0, 0, 0)
    ∧ ((text_color_for_fill "#000000" = "#FFFFFF" ↔ luminance 0 0 0 < 0.45)
      ∧ (text_color_for_fill "#000000" = "#000000" ↔
          ¬(luminance 0 0 0 < 0.45)))
    ∧ assigned_text_colors (CellDataSource.mk ["H", "O"] ["#123456", "#abcdef"])
        true = List.replicate 2 "#000000" :=
  ⟨by decide,
    claim_adaptive_text_color.1 "#000000" 0 0 0 (by decide),
    claim_adaptive_text_color.2.1
      (CellDataSource.mk ["H", "O"] ["#123456", "#abcdef"])⟩

theorem natCast_num_toNat (n : Nat) : ((n : ℚ).num).toNat = n := by
  simp

theorem natCast_isInt (n : Nat) : ((n : ℚ)).isInt = true := by
  simp [Rat.isInt]

/-- C2: exporting a non-empty `ElementCount` in raw mode to CSV and
re-ingesting that CSV through the CSV counting path with an empty exclusion
set reproduces the original map exactly (same symbols with the same counts,
up to the sort by atomic number). -/
theorem claim_csv_roundtrip
    (c : List (String × Nat)) (hne : c ≠ []) (hnd : (c.map Prod.fst).Nodup)
    (hv : ∀ e ∈ c.map Prod.fst, (atomic_number? e).isSome) :
    build_plot_and_csv_data c false false =
      .ok (.raw (counts_to_dataframe c) (counts_to_dataframe c)
        "element_count" "Count" 0)
    ∧ element_counts_from_csv
        (export_then_read_csv (counts_to_dataframe c)) [] =
      .ok (counts_to_dataframe c)
    ∧ List.Perm (counts_to_dataframe c) c := by
  have hdfne : counts_to_dataframe c ≠ [] := counts_to_dataframe_ne_nil hne
  have hdfkeys_sorted :
      List.Sorted (fun a b => zd a ≤ zd b)
        ((counts_to_dataframe c).map Prod.fst) := by
    rw [counts_to_dataframe_keys]
    exact sortByZ_sorted _
  have hdfnd : ((counts_to_dataframe c).map Prod.fst).Nodup := by
    rw [counts_to_dataframe_keys]
    exact (sortByZ_perm _).nodup_iff.mpr hnd
  have hdfv : ∀ e ∈ (counts_to_dataframe c).map Prod.fst,
      (atomic_number? e).isSome := by
    intro e he
    rw [counts_to_dataframe_keys] at he
    exact hv e ((sortByZ_perm _).mem_iff.mp he)
  set df := counts_to_dataframe c with hdf
  refine ⟨rfl, ?_, counts_to_dataframe_perm hnd⟩
  -- stage facts for the re-ingestion run
  have h0 : (export_then_read_csv df).rows.isEmpty = false := by
    rw [isEmpty_false_iff]
    simpa [export_then_read_csv] using hdfne
  have hsel0 : select_columns (export_then_read_csv df) =
      .ok ((df.map (fun p => [Cell.str p.1, Cell.num (p.2 : ℚ)])).map
        (fun r => ((r.get? 0).getD .na, (r.get? 1).getD .na))) := rfl
  have hsel : select_columns (export_then_read_csv df) =
      .ok (df.map (fun p => (Cell.str p.1, Cell.num (p.2 : ℚ)))) := by
    rw [hsel0, List.map_map]
    rfl
  have hkept : (df.map (fun p => (Cell.str p.1, Cell.num (p.2 : ℚ)))).filter
      (fun p => ¬p.1.isNa ∧ ¬p.2.isNa) =
      df.map (fun p => (Cell.str p.1, Cell.num (p.2 : ℚ))) := by
    rw [List.filter_eq_self]
    intro p hp
    obtain ⟨q, -, rfl⟩ := List.mem_map.mp hp
    rfl
  have h1 : ((df.map (fun p => (Cell.str p.1, Cell.num (p.2 : ℚ)))).filter
      (fun p => ¬p.1.isNa ∧ ¬p.2.isNa)).isEmpty = false := by
    rw [hkept, isEmpty_false_iff]
    simpa using hdfne
  have hsyms : ((df.map (fun p => (Cell.str p.1, Cell.num (p.2 : ℚ)))).filter
      (fun p => ¬p.1.isNa ∧ ¬p.2.isNa)).mapM
        (fun p => normalize_element_symbol (cellToStr p.1)) =
      .ok (df.map Prod.fst) := by
    rw [hkept]
    have : ∀ pr ∈ df.map (fun p => (Cell.str p.1, Cell.num (p.2 : ℚ))),
        normalize_element_symbol (cellToStr pr.1) = .ok (cellToStr pr.1) := by
      intro pr hpr
      obtain ⟨p, hp, rfl⟩ := List.mem_map.mp hpr
      have hvp : (atomic_number? p.1).isSome :=
        hdfv p.1 (List.mem_map_of_mem Prod.fst hp)
      exact normalize_fixpoint p.1 (atomic_number?_isSome_iff.mp hvp)
    rw [exc_mapM_of_forall this, List.map_map]
    rfl
  have hqs : ((df.map (fun p => (Cell.str p.1, Cell.num (p.2 : ℚ)))).filter
      (fun p => ¬p.1.isNa ∧ ¬p.2.isNa)).mapM (fun p => toNumeric p.2) =
      .ok (df.map (fun p => ((p.2 : Nat) : ℚ))) := by
    rw [hkept]
    have : ∀ pr ∈ df.map (fun p => (Cell.str p.1, Cell.num (p.2 : ℚ))),
        toNumeric pr.2 = .ok ((match pr.2 with
          | Cell.num q => q
          | _ => 0 : ℚ)) := by
      intro pr hpr
      obtain ⟨p, hp, rfl⟩ := List.mem_map.mp hpr
      rfl
    rw [exc_mapM_of_forall this, List.map_map]
    rfl
  have h2 : (df.map (fun p => ((p.2 : Nat) : ℚ))).any (fun q => q < 0) =
      false := by
    rw [List.any_eq_false]
    intro q hq
    obtain ⟨p, hp, rfl⟩ := List.mem_map.mp hq
    simp
  have h3 : (df.map (fun p => ((p.2 : Nat) : ℚ))).any (fun q => ¬q.isInt) =
      false := by
    rw [List.any_eq_false]
    intro q hq
    obtain ⟨p, hp, rfl⟩ := List.mem_map.mp hq
    simp [natCast_isInt]
  have hrows : (df.map Prod.fst).zip
      ((df.map (fun p => ((p.2 : Nat) : ℚ))).map (fun q => q.num.toNat)) =
      df := by
    have hm : (df.map (fun p => ((p.2 : Nat) : ℚ))).map
        (fun q => q.num.toNat) = df.map Prod.snd := by
      rw [List.map_map]
      apply List.map_congr_left
      intro p _
      simp [Function.comp_def, natCast_num_toNat]
    rw [hm, List.zip_map']
    calc df.map (fun p => (p.1, p.2))
        = df.map (fun p => p) := by
          apply List.map_congr_left
          intro p _
          rfl
      _ = df := List.map_id _
  have h4 : (if ([] : List String) ≠ [] then
      ((df.map Prod.fst).zip
        ((df.map (fun p => ((p.2 : Nat) : ℚ))).map
          (fun q => q.num.toNat))).filter (fun p => p.1 ∉ ([] : List String))
     else (df.map Prod.fst).zip
        ((df.map (fun p => ((p.2 : Nat) : ℚ))).map
          (fun q => q.num.toNat))).isEmpty = false := by
    rw [if_neg (by simp), hrows, isEmpty_false_iff]
    exact hdfne
  have happly := eccsv_of_stages (E := []) h0 hsel h1 hsyms hqs h2 h3 h4
  rw [if_neg (by simp), hrows] at happly
  rw [happly, group_and_sort_eq_self hdfnd hdfkeys_sorted]

theorem claim_csv_roundtrip_witness :
    (([("O", 2), ("H", 4)] : List (String × Nat)) ≠ []
      ∧ (([("O", 2), ("H", 4)] : List (String × Nat)).map Prod.fst).Nodup
      ∧ (∀ e ∈ ([("O", 2), ("H", 4)] : List (String × Nat)).map Prod.fst,
          (atomic_number? e).isSome))
    ∧ (element_counts_from_csv
        (export_then_read_csv (counts_to_dataframe [("O", 2), ("H", 4)])) [] =
          .ok (counts_to_dataframe [("O", 2), ("H", 4)])
      ∧ List.Perm (counts_to_dataframe [("O", 2), ("H", 4)])
          [("O", 2), ("H", 4)]) :=
  ⟨⟨by decide, by decide, by decide⟩,
    (claim_csv_roundtrip [("O", 2), ("H", 4)] (by decide) (by decide)
      (by decide)).2.1,
    (claim_csv_roundtrip [("O", 2), ("H", 4)] (by decide) (by decide)
      (by decide)).2.2⟩

/-- C7: the CSV ingestion path uses the columns literally named `"Element"`
and `"element_count"` when both exist and the first two columns otherwise;
rows with a missing value in either column are dropped without changing the
rest of the run; an invalid symbol among the kept rows fails the run with a
symbol error; a negative count fails the run, and a non-integral count fails
the run once no count is negative; and a successful run returns, after
filtering the excluded elements, one row per distinct normalized symbol with
the counts of duplicates summed, sorted strictly by atomic number. -/
theorem claim_csv_ingestion (t : RawCsv) (E : List String) :
    (("Element" ∈ t.columns ∧ "element_count" ∈ t.columns) →
      select_columns t = .ok (t.rows.map (fun r =>
        ((r.get? ((t.columns.findIdx? (· = "Element")).getD 0)).getD .na,
         (r.get? ((t.columns.findIdx? (· = "element_count")).getD 0)).getD
           .na))))
    ∧ ((¬("Element" ∈ t.columns ∧ "element_count" ∈ t.columns) ∧
        2 ≤ t.columns.length) →
      select_columns t = .ok (t.rows.map (fun r =>
        ((r.get? 0).getD .na, (r.get? 1).getD .na))))
    ∧ (∀ pairs, t.rows.isEmpty = false → select_columns t = .ok pairs →
      ((pairs.filter (fun p => ¬p.1.isNa ∧ ¬p.2.isNa)).isEmpty = false →
        element_counts_from_csv t E =
          element_counts_from_csv
            ⟨["Element", "element_count"],
              (pairs.filter (fun p => ¬p.1.isNa ∧ ¬p.2.isNa)).map
                (fun p => [p.1, p.2])⟩ E))
    ∧ (∀ pairs, t.rows.isEmpty = false → select_columns t = .ok pairs →
      (pairs.filter (fun p => ¬p.1.isNa ∧ ¬p.2.isNa)).isEmpty = false →
      (∃ p ∈ pairs.filter (fun p => ¬p.1.isNa ∧ ¬p.2.isNa),
        ∃ e, normalize_element_symbol (cellToStr p.1) = .error e) →
      ∃ e', element_counts_from_csv t E = .error e' ∧
        (e' = .emptySymbol ∨ ∃ s, e' = .invalidElement s))
    ∧ (∀ pairs syms qs, t.rows.isEmpty = false →
      select_columns t = .ok pairs →
      (pairs.filter (fun p => ¬p.1.isNa ∧ ¬p.2.isNa)).isEmpty = false →
      (pairs.filter (fun p => ¬p.1.isNa ∧ ¬p.2.isNa)).mapM
        (fun p => normalize_element_symbol (cellToStr p.1)) = .ok syms →
      (pairs.filter (fun p => ¬p.1.isNa ∧ ¬p.2.isNa)).mapM
        (fun p => toNumeric p.2) = .ok qs →
      ((qs.any (fun q => q < 0) = true →
        element_counts_from_csv t E = .error .csvNegativeCounts)
      ∧ (qs.any (fun q => q < 0) = false →
         qs.any (fun q => ¬q.isInt) = true →
        element_counts_from_csv t E = .error .csvNonIntegerCounts)))
    ∧ (∀ r, element_counts_from_csv t E = .ok r →
      ∃ pairs syms qs rowsE,
        select_columns t = .ok pairs
        ∧ (pairs.filter (fun p => ¬p.1.isNa ∧ ¬p.2.isNa)).mapM
            (fun p => normalize_element_symbol (cellToStr p.1)) = .ok syms
        ∧ (pairs.filter (fun p => ¬p.1.isNa ∧ ¬p.2.isNa)).mapM
            (fun p => toNumeric p.2) = .ok qs
        ∧ rowsE = (if E ≠ [] then
            (syms.zip (qs.map (fun q => q.num.toNat))).filter
              (fun p => p.1 ∉ E)
           else syms.zip (qs.map (fun q => q.num.toNat)))
        ∧ r = group_and_sort rowsE
        ∧ List.Pairwise (fun p q => zd p.1 < zd q.1) r
        ∧ (r.map Prod.fst).Nodup
        ∧ (∀ k v, (k, v) ∈ r ↔ k ∈ rowsE.map Prod.fst ∧
            v = ((rowsE.filter (fun row => row.1 = k)).map Prod.snd).sum)
        ∧ (∀ p ∈ rowsE, p.1 ∉ E ∧ p.1 ∈ syms)) := by
  refine ⟨?_, ?_, ?_, ?_, ?_, ?_⟩
  · intro h
    rw [select_columns, if_pos h]
  · rintro ⟨h1, h2⟩
    rw [select_columns, if_neg h1, if_pos h2]
  · intro pairs h0 hsel h1
    have hkept' : ((pairs.filter (fun p => ¬p.1.isNa ∧ ¬p.2.isNa)).filter
        (fun p => ¬p.1.isNa ∧ ¬p.2.isNa)) =
        pairs.filter (fun p => ¬p.1.isNa ∧ ¬p.2.isNa) := by
      rw [List.filter_eq_self]
      intro p hp
      exact (List.mem_filter.mp hp).2
    have hsel' : select_columns
        ⟨["Element", "element_count"],
          (pairs.filter (fun p => ¬p.1.isNa ∧ ¬p.2.isNa)).map
            (fun p => [p.1, p.2])⟩ =
        .ok (pairs.filter (fun p => ¬p.1.isNa ∧ ¬p.2.isNa)) := by
      have step : select_columns
          ⟨["Element", "element_count"],
            (pairs.filter (fun p => ¬p.1.isNa ∧ ¬p.2.isNa)).map
              (fun p => [p.1, p.2])⟩ =
          .ok (((pairs.filter (fun p => ¬p.1.isNa ∧ ¬p.2.isNa)).map
            (fun p => [p.1, p.2])).map
              (fun r => ((r.get? 0).getD .na, (r.get? 1).getD .na))) := rfl
      rw [step, List.map_map]
      congr 1
      calc ((pairs.filter (fun p => ¬p.1.isNa ∧ ¬p.2.isNa)).map
          ((fun r => ((r.get? 0).getD .na, (r.get? 1).getD .na)) ∘
            (fun p => [p.1, p.2])))
          = (pairs.filter (fun p => ¬p.1.isNa ∧ ¬p.2.isNa)).map
            (fun p => p) := by
            apply List.map_congr_left
            intro p _
            rfl
        _ = _ := List.map_id _
    have hrows' : ((pairs.filter (fun p => ¬p.1.isNa ∧ ¬p.2.isNa)).map
        (fun p => [p.1, p.2])).isEmpty = false := by
      rw [isEmpty_false_iff]
      intro hnil
      rw [List.map_eq_nil_iff] at hnil
      rw [hnil] at h1
      simp at h1
    rw [element_counts_from_csv, if_neg (bool_ne_true h0)]
    simp only [hsel]
    rw [element_counts_from_csv, if_neg (bool_ne_true hrows')]
    simp only [hsel']
    rw [hkept']
  · intro pairs h0 hsel h1 hbad
    obtain ⟨e', ⟨p, hp, hpe⟩, herr⟩ := exc_mapM_error_of_mem hbad
    refine ⟨e', ?_, normalize_error_shape hpe⟩
    rw [element_counts_from_csv, if_neg (bool_ne_true h0)]
    simp only [hsel]
    rw [csv_count_stage, if_neg (bool_ne_true h1)]
    simp only [herr]
  · intro pairs syms qs h0 hsel h1 hsyms hqs
    constructor
    · intro h2
      rw [element_counts_from_csv, if_neg (bool_ne_true h0)]
      simp only [hsel]
      rw [csv_count_stage, if_neg (bool_ne_true h1)]
      simp only [hsyms, hqs]
      rw [if_pos h2]
    · intro h2 h3
      rw [element_counts_from_csv, if_neg (bool_ne_true h0)]
      simp only [hsel]
      rw [csv_count_stage, if_neg (bool_ne_true h1)]
      simp only [hsyms, hqs]
      rw [if_neg (bool_ne_true h2), if_pos h3]
  · intro r hok
    obtain ⟨pairs, syms, qs, h0, hsel, h1, hsyms, hqs, h2, h3, h4, hr⟩ :=
      eccsv_ok_decompose hok
    refine ⟨pairs, syms, qs, _, hsel, hsyms, hqs, rfl, hr, ?_, ?_, ?_, ?_⟩
    · -- sorted strictly
      rw [hr]
      apply group_and_sort_pairwise
      intro k hk
      obtain ⟨p, hp, rfl⟩ := List.mem_map.mp hk
      have hpz : p ∈ syms.zip (qs.map (fun q => q.num.toNat)) := by
        by_cases hE : E ≠ []
        · rw [if_pos hE] at hp
          exact List.mem_of_mem_filter hp
        · rw [if_neg hE] at hp
          exact hp
      have hsym : p.1 ∈ syms := (List.of_mem_zip hpz).1
      exact exc_mapM_normalize_valid hsyms p.1 hsym
    · rw [hr]
      exact group_and_sort_nodup _
    · intro k v
      rw [hr]
      exact group_and_sort_mem _ k v
    · intro p hp
      constructor
      · by_cases hE : E ≠ []
        · rw [if_pos hE] at hp
          simpa using (List.mem_filter.mp hp).2
        · rw [not_not] at hE
          subst hE
          simp
      · have hpz : p ∈ syms.zip (qs.map (fun q => q.num.toNat)) := by
          by_cases hE : E ≠ []
          · rw [if_pos hE] at hp
            exact List.mem_of_mem_filter hp
          · rw [if_neg hE] at hp
            exact hp
        exact (List.of_mem_zip hpz).1

theorem claim_csv_ingestion_witness :
    (("Element" ∈ (["foo", "Element", "element_count"] : List String)
        ∧ "element_count" ∈ (["foo", "Element", "element_count"] : List String))
      ∧ select_columns
          ⟨["foo", "Element", "element_count"],
            [[Cell.num 9, Cell.str "H", Cell.num 2]]⟩ =
        .ok ([[Cell.num 9, Cell.str "H", Cell.num 2]].map (fun r =>
          ((r.get? (((["foo", "Element", "element_count"] :
              List String).findIdx? (· = "Element")).getD 0)).getD .na,
           (r.get? (((["foo", "Element", "element_count"] :
              List String).findIdx? (· = "element_count")).getD 0)).getD
             .na))))
    ∧ (element_counts_from_csv
        ⟨["a", "b"], [[Cell.str "h", Cell.num 2], [Cell.str "H", Cell.num 3],
          [Cell.na, Cell.num 9]]⟩ [] = .ok [("H", 5)]
      ∧ ∃ pairs syms qs rowsE,
        select_columns ⟨["a", "b"],
          [[Cell.str "h", Cell.num 2], [Cell.str "H", Cell.num 3],
            [Cell.na, Cell.num 9]]⟩ = .ok pairs
        ∧ (pairs.filter (fun p => ¬p.1.isNa ∧ ¬p.2.isNa)).mapM
            (fun p => normalize_element_symbol (cellToStr p.1)) = .ok syms
        ∧ (pairs.filter (fun p => ¬p.1.isNa ∧ ¬p.2.isNa)).mapM
            (fun p => toNumeric p.2) = .ok qs
        ∧ rowsE = (if ([] : List String) ≠ [] then
            (syms.zip (qs.map (fun q => q.num.toNat))).filter
              (fun p => p.1 ∉ ([] : List String))
           else syms.zip (qs.map (fun q => q.num.toNat)))
        ∧ [("H", 5)] = group_and_sort rowsE
        ∧ List.Pairwise (fun p q => zd p.1 < zd q.1)
            ([("H", 5)] : List (String × Nat))
        ∧ ((([("H", 5)] : List (String × Nat))).map Prod.fst).Nodup
        ∧ (∀ k v, (k, v) ∈ ([("H", 5)] : List (String × Nat)) ↔
            k ∈ rowsE.map Prod.fst ∧
            v = ((rowsE.filter (fun row => row.1 = k)).map Prod.snd).sum)
        ∧ (∀ p ∈ rowsE, p.1 ∉ ([] : List String) ∧ p.1 ∈ syms)) :=
  ⟨⟨⟨by decide, by decide⟩,
    (claim_csv_ingestion
      ⟨["foo", "Element", "element_count"],
        [[Cell.num 9, Cell.str "H", Cell.num 2]]⟩ []).1
      ⟨by decide, by decide⟩⟩,
   by decide,
   (claim_csv_ingestion
      ⟨["a", "b"], [[Cell.str "h", Cell.num 2], [Cell.str "H", Cell.num 3],
        [Cell.na, Cell.num 9]]⟩ []).2.2.2.2.2 [("H", 5)] (by decide)⟩

end XyzPt
